import Mathlib

/-!
Shallow embedding of the expense tracker core: the message parser
(`src/lib/parseMessage.ts`), the allocation engine embedded in the
ingestion and edit handlers (`src/app.ts`), the ledger validation handler,
and the receivable balance aggregation (`src/db-pg/ledgerRepo.ts`).

Numeric amounts are modelled as exact rationals (ℚ): the source computes
in JS floating point, and every claim under study is about the exact
arithmetic the code's expressions denote. JS strings are modelled as Lean
strings with an ASCII model of `toLowerCase`.
-/

namespace ExpenseTracker

/-! ### JS string primitives -/

/-- ASCII model of `String.prototype.toLowerCase` on a single character. -/
def lowerChar (c : Char) : Char :=
  if 65 ≤ c.toNat ∧ c.toNat ≤ 90 then Char.ofNat (c.toNat + 32) else c

def toLowerL (cs : List Char) : List Char := cs.map lowerChar

def toLowerStr (s : String) : String := String.mk (toLowerL s.data)

/-- Model of the JS `\s` class on the characters that survive `normalize`
    (ASCII whitespace). -/
def isJsWs (c : Char) : Bool :=
  c = ' ' || c = '\t' || c = '\n' || c = '\r' || c = '\x0b' || c = '\x0c'

def dropLeadWs : List Char → List Char
  | [] => []
  | c :: rest => if isJsWs c then dropLeadWs rest else c :: rest

/-- Model of `String.prototype.trim`. -/
def jsTrimL (cs : List Char) : List Char :=
  (dropLeadWs (dropLeadWs cs).reverse).reverse

def jsTrim (s : String) : String := String.mk (jsTrimL s.data)

/-- A character list with no leading whitespace (the shape `dropLeadWs`
    produces). -/
def noLeadWs : List Char → Prop
  | [] => True
  | c :: _ => isJsWs c = false

/-- Right trim only, for reasoning about `jsTrimL` as two one-sided trims. -/
def trimEnd (l : List Char) : List Char := (dropLeadWs l.reverse).reverse

/-- Model of `.replace(/\s+/g, ' ')`: collapse every whitespace run to one space. -/
def collapseWsAux : Bool → List Char → List Char
  | _, [] => []
  | prevWs, c :: rest =>
    if isJsWs c then
      if prevWs then collapseWsAux true rest else ' ' :: collapseWsAux true rest
    else c :: collapseWsAux false rest

/-- `normalize` from parseMessage.ts: trim, collapse whitespace.
    (The source's `.replace(/[₹]/g, '₹')` replaces U+20B9 with itself
    and is the identity, so it is not modelled separately.) -/
def normalize (s : String) : String := String.mk (collapseWsAux false (jsTrimL s.data))

/-- `text.split(sep)` where `sep` is a single character. -/
def splitChAux (sep : Char) : List Char → List Char → List (List Char)
  | [], cur => [cur.reverse]
  | c :: rest, cur =>
    if c = sep then cur.reverse :: splitChAux sep rest [] else splitChAux sep rest (c :: cur)

def splitCh (sep : Char) (cs : List Char) : List (List Char) := splitChAux sep cs []

/-- `arr.join(' ')`. -/
def joinSpL : List (List Char) → List Char
  | [] => []
  | [t] => t
  | t :: u :: rest => t ++ ' ' :: joinSpL (u :: rest)

def joinSp (l : List String) : String := String.mk (joinSpL (l.map String.data))

def stripPre : List Char → List Char → Option (List Char)
  | [], cs => some cs
  | _ :: _, [] => none
  | p :: ps, c :: cs => if c = p then stripPre ps cs else none

def digitVal (c : Char) : Nat := c.toNat - 48

def digitsToNat (cs : List Char) : Nat := cs.foldl (fun a c => 10 * a + digitVal c) 0

/-- Exact value of a decimal literal with integer digits `int` and fraction
    digits `frac` (JS `Number(...)` on the matched digit groups): all the
    digits read as one integer, divided by `10 ^ (number of fraction digits)`. -/
def decToRat (int frac : List Char) : ℚ :=
  mkRat (digitsToNat (int ++ frac)) (10 ^ frac.length)

def spanDigits : List Char → List Char × List Char
  | [] => ([], [])
  | c :: rest =>
    if c.isDigit then
      let (d, r) := spanDigits rest
      (c :: d, r)
    else ([], c :: rest)

/-- One `\d+(?:\.\d+)?` component of the split-ratio token. -/
def parsePosDec (cs : List Char) : Option (ℚ × List Char) :=
  match spanDigits cs with
  | ([], _) => none
  | (ds, rest) =>
    match rest with
    | '.' :: rest2 =>
      match spanDigits rest2 with
      | ([], _) => some (decToRat ds [], '.' :: rest2)
      | (fs, rest3) => some (decToRat ds fs, rest3)
    | _ => some (decToRat ds [], rest)

/-- Full-token match of `^\d+(?:\.\d+)?\/\d+(?:\.\d+)?$`, returning the two
    numeric components. -/
def parseRatioTok (cs : List Char) : Option (ℚ × ℚ) :=
  match parsePosDec cs with
  | some (a, '/' :: rest) =>
    match parsePosDec rest with
    | some (b, []) => some (a, b)
    | _ => none
  | _ => none

/-- JS truthiness of an optional string (`undefined` and `''` are falsy). -/
def truthyStr : Option String → Bool
  | some s => s != ""
  | none => false

/-! ### Data model (`ParsedExpense` from parseMessage.ts) -/

inductive PaidBy where
  | me
  | roommate
deriving DecidableEq, Repr

inductive LType where
  | expense
  | income
  | transfer
  | investment
  | liability
  | receivable
deriving DecidableEq, Repr

inductive LDirection where
  | i_lent
  | i_borrowed
  | repay
  | collect
deriving DecidableEq, Repr

inductive SplitType where
  | none
  | equal
  | ratio
deriving DecidableEq, Repr

/-- An extracted occurrence date. The source renders these to a `YYYY-MM-DD`
    string (using the wall clock for `today`/`yesterday` and JS `Date`
    rollover for the slash form); no claim under study inspects the rendered
    value, so the constructor records which form matched and its components.
    `raw` models the edit handler overriding `occurredOn` with the request
    body's string. -/
inductive DateTok where
  | iso (y m d : String)
  | slash (dd mm yyyy : Nat)
  | yesterday
  | today
  | raw (s : String)
deriving DecidableEq, Repr

structure ParsedExpense where
  amount : ℚ
  myAmount : Option ℚ := Option.none
  currency : Option String := Option.none
  occurredOn : Option DateTok := Option.none
  category : Option String := Option.none
  note : Option String := Option.none
  card : Option String := Option.none
  paidBy : Option PaidBy := Option.none
  type : Option LType := Option.none
  account : Option String := Option.none
  asset : Option String := Option.none
  liability : Option String := Option.none
  counterparty : Option String := Option.none
  direction : Option LDirection := Option.none
  splitType : Option SplitType := Option.none
  splitRatioMe : Option ℚ := Option.none
  splitRatioOther : Option ℚ := Option.none
  otherParty : Option String := Option.none
  otherParties : Option (List String) := Option.none
  forPerson : Option String := Option.none
deriving DecidableEq, Repr

/-! ### Meta-token extraction (`extractMetaTokens`) -/

/-- Mutable locals of the `extractMetaTokens` token loop. -/
structure MetaAcc where
  card : Option String := Option.none
  paidBy : Option PaidBy := Option.none
  forPerson : Option String := Option.none
  splitType : SplitType := SplitType.none
  splitRatioMe : Option ℚ := Option.none
  splitRatioOther : Option ℚ := Option.none
  otherParty : Option String := Option.none
  otherPartiesRaw : List String := []
  type : Option LType := Option.none
  account : Option String := Option.none
  asset : Option String := Option.none
  liability : Option String := Option.none
  counterparty : Option String := Option.none
  direction : Option LDirection := Option.none
  kept : List (List Char) := []
deriving Repr

/-- `lower.match(/^type:(expense|income|transfer|investment|liability|receivable)$/)`. -/
def matchTypeTok (lower : List Char) : Option LType :=
  match stripPre "type:".data lower with
  | some v =>
    if v = "expense".data then some LType.expense
    else if v = "income".data then some LType.income
    else if v = "transfer".data then some LType.transfer
    else if v = "investment".data then some LType.investment
    else if v = "liability".data then some LType.liability
    else if v = "receivable".data then some LType.receivable
    else Option.none
  | Option.none => Option.none

/-- `lower.match(/^(?:dir|direction):(i_lent|i_borrowed|repay|collect)$/)`. -/
def matchDirTok (lower : List Char) : Option LDirection :=
  let payload :=
    match stripPre "dir:".data lower with
    | some v => some v
    | Option.none => stripPre "direction:".data lower
  match payload with
  | some v =>
    if v = "i_lent".data then some LDirection.i_lent
    else if v = "i_borrowed".data then some LDirection.i_borrowed
    else if v = "repay".data then some LDirection.repay
    else if v = "collect".data then some LDirection.collect
    else Option.none
  | Option.none => Option.none

/-- `lower.match(/^paidby:(me|roommate)$/)`. -/
def matchPaidByTok (lower : List Char) : Option PaidBy :=
  match stripPre "paidby:".data lower with
  | some v =>
    if v = "me".data then some PaidBy.me
    else if v = "roommate".data then some PaidBy.roommate
    else Option.none
  | Option.none => Option.none

/-- `^key:(.+)$`: strip a prefix and require a nonempty remainder. -/
def matchVal (key : List Char) (lower : List Char) : Option (List Char) :=
  match stripPre key lower with
  | some [] => Option.none
  | some v => some v
  | Option.none => Option.none

/-- First alternative that matches, for the aliased keys
    (`acct|account`, `asset|inv|investment`, `liab|liability`,
    `cp|counterparty|person`, `for|owner`). -/
def matchValAlts (keys : List (List Char)) (lower : List Char) : Option (List Char) :=
  match keys with
  | [] => Option.none
  | k :: rest =>
    match matchVal k lower with
    | some v => some v
    | Option.none => matchValAlts rest lower

/-- The comma-split used for `other:<x>`:
    `raw.split(',').map(s => s.trim()).filter(Boolean)`. -/
def commaParts (v : List Char) : List String :=
  (((splitCh ',' v).map jsTrimL).filter (· ≠ [])).map String.mk

/-- `split:<v>` handling (parseMessage.ts lines 315-334). -/
def applySplitVal (acc : MetaAcc) (v : List Char) : MetaAcc :=
  if v = "equal".data then { acc with splitType := SplitType.equal }
  else
    match parseRatioTok v with
    | some (a, b) =>
      if 0 < a ∧ 0 < b then
        { acc with splitType := SplitType.ratio, splitRatioMe := some a, splitRatioOther := some b }
      else { acc with splitType := SplitType.equal }
    | Option.none => { acc with splitType := SplitType.equal }

/-- JS `a ?? b` on optional strings (nullish coalescing). -/
def jsNullish (a b : Option String) : Option String :=
  match a with
  | some x => some x
  | Option.none => b

/-- The token loop of `extractMetaTokens`, one branch per source `if`,
    in source order. `continue` is recursion on the remaining tokens;
    a bare `split` may additionally consume the following ratio token.
    Recursion is on a fuel bounded below by the token count (each step
    consumes at least one token), keeping the definition structural. -/
def extractLoopF : Nat → List (List Char) → MetaAcc → MetaAcc
  | 0, _, acc => acc
  | _ + 1, [], acc => acc
  | fuel + 1, t :: rest, acc =>
    let extractLoop := extractLoopF fuel
    let lower := toLowerL t
    match matchVal "card:".data lower with
    | some v => extractLoop rest { acc with card := some (String.mk v) }
    | Option.none =>
    match matchTypeTok lower with
    | some ty => extractLoop rest { acc with type := some ty }
    | Option.none =>
    match matchValAlts ["acct:".data, "account:".data] lower with
    | some v => extractLoop rest { acc with account := some (String.mk v) }
    | Option.none =>
    match matchValAlts ["asset:".data, "inv:".data, "investment:".data] lower with
    | some v => extractLoop rest { acc with asset := some (String.mk v) }
    | Option.none =>
    match matchValAlts ["liab:".data, "liability:".data] lower with
    | some v => extractLoop rest { acc with liability := some (String.mk v) }
    | Option.none =>
    match matchValAlts ["cp:".data, "counterparty:".data, "person:".data] lower with
    | some v => extractLoop rest { acc with counterparty := some (String.mk v) }
    | Option.none =>
    match matchDirTok lower with
    | some d => extractLoop rest { acc with direction := some d }
    | Option.none =>
    match matchPaidByTok lower with
    | some pb => extractLoop rest { acc with paidBy := some pb }
    | Option.none =>
    match matchValAlts ["for:".data, "owner:".data] lower with
    | some v => extractLoop rest { acc with forPerson := some (String.mk (jsTrimL v)) }
    | Option.none =>
    match matchVal "other:".data lower with
    | some v =>
      let parts := commaParts v
      extractLoop rest
        { acc with
          otherPartiesRaw := acc.otherPartiesRaw ++ parts
          otherParty := jsNullish acc.otherParty parts.head? }
    | Option.none =>
    match matchVal "split:".data lower with
    | some v => extractLoop rest (applySplitVal acc v)
    | Option.none =>
    if lower = "split".data then
      match rest with
      | next :: rest2 =>
        match parseRatioTok next with
        | some (a, b) =>
          if 0 < a ∧ 0 < b then
            extractLoop rest2
              { acc with splitType := SplitType.ratio, splitRatioMe := some a,
                         splitRatioOther := some b }
          else extractLoop rest2 { acc with splitType := SplitType.equal }
        | Option.none => extractLoop rest { acc with splitType := SplitType.equal }
      | [] => { acc with splitType := SplitType.equal }
    else extractLoop rest { acc with kept := acc.kept ++ [t] }

/-- One step of `new Map(...)` construction over `[key, value]` pairs:
    an existing key has its value updated in place, a new key is appended. -/
def insertPair (m : List (String × String)) (k v : String) : List (String × String) :=
  if m.any (fun kv => kv.1 == k) then
    m.map (fun kv => if kv.1 == k then (k, v) else kv)
  else m ++ [(k, v)]

/-- `Array.from(new Map(raw.map(s => [s.toLowerCase(), s])).values())`
    (with the source's re-trim/re-filter of `otherPartiesRaw`). -/
def jsMapDedup (raw : List String) : List String :=
  (((raw.map jsTrim).filter (· ≠ "")).foldl
    (fun m s => insertPair m (toLowerStr s) s) []).map Prod.snd

/-- The record returned by `extractMetaTokens`. -/
structure MetaOut where
  cleaned : String
  card : Option String
  paidBy : Option PaidBy
  forPerson : Option String
  splitType : SplitType
  splitRatioMe : Option ℚ
  splitRatioOther : Option ℚ
  otherParty : Option String
  otherParties : Option (List String)
  type : Option LType
  account : Option String
  asset : Option String
  liability : Option String
  counterparty : Option String
  direction : Option LDirection
deriving Repr

def metaTokens (text : String) : List (List Char) :=
  (splitCh ' ' text.data).filter (· ≠ [])

def extractLoop (toks : List (List Char)) (acc : MetaAcc) : MetaAcc :=
  extractLoopF toks.length toks acc

def extractMetaTokens (text : String) : MetaOut :=
  let acc := extractLoop (metaTokens text) {}
  let otherParties := jsMapDedup acc.otherPartiesRaw
  { cleaned := String.mk (joinSpL acc.kept)
    card := acc.card
    paidBy := acc.paidBy
    forPerson := acc.forPerson
    splitType := acc.splitType
    splitRatioMe := acc.splitRatioMe
    splitRatioOther := acc.splitRatioOther
    otherParty := acc.otherParty
    otherParties := if otherParties ≠ [] then some otherParties else Option.none
    type := acc.type
    account := acc.account
    asset := acc.asset
    liability := acc.liability
    counterparty := acc.counterparty
    direction := acc.direction }

/-- Invariant carried through the token loop: `otherParty` is always the head
    of the raw other-party list, and every accumulated raw party is already
    lowercase (the loop matches on the lowercased token), trimmed and
    nonempty. -/
def MetaInv (acc : MetaAcc) : Prop :=
  acc.otherParty = acc.otherPartiesRaw.head?
    ∧ ∀ x ∈ acc.otherPartiesRaw, toLowerStr x = x ∧ x ≠ "" ∧ jsTrim x = x

/-- The raw other-party accumulation of a message: every comma part of every
    `other:<x>` token in source order, before deduplication. -/
def otherRaw (s : String) : List String :=
  (extractLoop (metaTokens (normalize s)) {}).otherPartiesRaw

/-! ### Date resolution (`parseDateToken`) -/

/-- JS `\w` (`[A-Za-z0-9_]`). -/
def isWordChar (c : Char) : Bool := c.isAlpha || c.isDigit || c = '_'

/-- A `\b` boundary between the end of a match and the remaining text. -/
def boundaryOk : List Char → Bool
  | [] => true
  | c :: _ => !(isWordChar c)

/-- Attempt of `\b(\d{4})-(\d{2})-(\d{2})\b` at the current position
    (the leading `\b` is checked by the caller). -/
def isoAt : List Char → Option (List Char × String × String × String)
  | a :: b :: c :: d :: '-' :: e :: f :: '-' :: g :: h :: rest =>
    if a.isDigit && b.isDigit && c.isDigit && d.isDigit && e.isDigit && f.isDigit
        && g.isDigit && h.isDigit && boundaryOk rest then
      some ([a, b, c, d, '-', e, f, '-', g, h],
        String.mk [a, b, c, d], String.mk [e, f], String.mk [g, h])
    else Option.none
  | _ => Option.none

/-- Leftmost-match scan for the ISO date pattern. The flag records whether
    the previous character was a non-word character (so `\b` holds). -/
def findIso : List Char → Bool → Option (List Char × String × String × String)
  | [], _ => Option.none
  | c :: rest, prevNW =>
    match (if prevNW then isoAt (c :: rest) else Option.none) with
    | some r => some r
    | Option.none => findIso rest (!(isWordChar c))

/-- Greedy `\d{1,2}` followed by `/`; returns (value, digit count, rest). -/
def d12Slash : List Char → Option (Nat × Nat × List Char)
  | a :: b :: c :: rest =>
    if a.isDigit && b.isDigit && c = '/' then some (10 * digitVal a + digitVal b, 2, rest)
    else if a.isDigit && b = '/' then some (digitVal a, 1, c :: rest)
    else Option.none
  | [a, b] => if a.isDigit && b = '/' then some (digitVal a, 1, []) else Option.none
  | _ => Option.none

/-- Attempt of `\b(\d{1,2})\/(\d{1,2})\/(\d{4})\b` at the current position. -/
def slashAt (cs : List Char) : Option (List Char × Nat × Nat × Nat) :=
  match d12Slash cs with
  | some (dd, l1, r1) =>
    match d12Slash r1 with
    | some (mm, l2, r2) =>
      match r2 with
      | y1 :: y2 :: y3 :: y4 :: rest =>
        if y1.isDigit && y2.isDigit && y3.isDigit && y4.isDigit && boundaryOk rest then
          some (cs.take (l1 + 1 + l2 + 1 + 4), dd, mm, digitsToNat [y1, y2, y3, y4])
        else Option.none
      | _ => Option.none
    | Option.none => Option.none
  | Option.none => Option.none

def findSlash : List Char → Bool → Option (List Char × Nat × Nat × Nat)
  | [], _ => Option.none
  | c :: rest, prevNW =>
    match (if prevNW then slashAt (c :: rest) else Option.none) with
    | some r => some r
    | Option.none => findSlash rest (!(isWordChar c))

/-- Case-insensitive prefix strip (`w` is given in lower case). -/
def ciStrip : List Char → List Char → Option (List Char)
  | [], cs => some cs
  | _ :: _, [] => Option.none
  | p :: ps, c :: cs => if lowerChar c = p then ciStrip ps cs else Option.none

/-- `/\bword\b/i.test(text)`. -/
def hasWordCI (w : List Char) : List Char → Bool → Bool
  | [], _ => false
  | c :: rest, prevNW =>
    (prevNW &&
      (match ciStrip w (c :: rest) with
       | some after => boundaryOk after
       | Option.none => false))
    || hasWordCI w rest (!(isWordChar c))

/-- `text.replace(/\bword\b/gi, '')`: remove every non-overlapping match,
    scanning left to right (`w` consists of letters, so the character
    preceding the next position after a match is a word character). -/
def removeWordCIAux (w : List Char) : Nat → List Char → Bool → List Char
  | 0, cs, _ => cs
  | _ + 1, [], _ => []
  | fuel + 1, c :: rest, prevNW =>
    match (if prevNW then ciStrip w (c :: rest) else Option.none) with
    | some after =>
      if boundaryOk after then removeWordCIAux w fuel after false
      else c :: removeWordCIAux w fuel rest (!(isWordChar c))
    | Option.none => c :: removeWordCIAux w fuel rest (!(isWordChar c))

def removeWordCI (w : List Char) (cs : List Char) : List Char :=
  removeWordCIAux w cs.length cs true

def isPreL : List Char → List Char → Bool
  | [], _ => true
  | _ :: _, [] => false
  | p :: ps, c :: cs => p = c && isPreL ps cs

/-- `text.replace(matched, '')` for a literal substring: remove the first
    literal occurrence. -/
def replaceFirstSub : List Char → List Char → List Char
  | [], _ => []
  | c :: rest, m =>
    if isPreL m (c :: rest) then (c :: rest).drop m.length else c :: replaceFirstSub rest m

/-- `parseDateToken` from parseMessage.ts. Priority: ISO, then slash
    (`new Date(yyyy, mm-1, dd)` on in-range numeric arguments is never
    `NaN`, so the slash branch always consumes its match), then
    `yesterday`, then `today`. -/
def parseDateToken (text : String) : Option DateTok × String :=
  let cs := text.data
  match findIso cs true with
  | some (m, y, mo, d) =>
    (some (DateTok.iso y mo d), String.mk (jsTrimL (replaceFirstSub cs m)))
  | Option.none =>
  match findSlash cs true with
  | some (m, dd, mm, yyyy) =>
    (some (DateTok.slash dd mm yyyy), String.mk (jsTrimL (replaceFirstSub cs m)))
  | Option.none =>
  if hasWordCI "yesterday".data cs true then
    (some DateTok.yesterday, String.mk (jsTrimL (removeWordCI "yesterday".data cs)))
  else if hasWordCI "today".data cs true then
    (some DateTok.today, String.mk (jsTrimL (removeWordCI "today".data cs)))
  else (Option.none, text)

/-! ### Amount extraction
    `/(?:\$|usd\s*)?([0-9]+(?:,[0-9]{3})*)(?:\.(\d{1,2}))?/i` -/

/-- Greedy `(?:,[0-9]{3})*`: returns (digits sans commas, consumed length, rest). -/
def commaGroups : List Char → List Char × Nat × List Char
  | ',' :: a :: b :: c :: rest =>
    if a.isDigit && b.isDigit && c.isDigit then
      let (g, n, r) := commaGroups rest
      (a :: b :: c :: g, n + 4, r)
    else ([], 0, ',' :: a :: b :: c :: rest)
  | cs => ([], 0, cs)

/-- `([0-9]+(?:,[0-9]{3})*)(?:\.(\d{1,2}))?` at the current position:
    (consumed length, integer digits with commas stripped, fraction digits). -/
def numAt (cs : List Char) : Option (Nat × List Char × List Char) :=
  match spanDigits cs with
  | ([], _) => Option.none
  | (ds, rest) =>
    let (g, glen, rest2) := commaGroups rest
    match rest2 with
    | '.' :: r3 =>
      (match r3 with
       | a :: b :: _ =>
         if a.isDigit && b.isDigit then some (ds.length + glen + 3, ds ++ g, [a, b])
         else if a.isDigit then some (ds.length + glen + 2, ds ++ g, [a])
         else some (ds.length + glen, ds ++ g, [])
       | [a] =>
         if a.isDigit then some (ds.length + glen + 2, ds ++ g, [a])
         else some (ds.length + glen, ds ++ g, [])
       | [] => some (ds.length + glen, ds ++ g, []))
    | _ => some (ds.length + glen, ds ++ g, [])

def countLeadWs : List Char → Nat
  | [] => 0
  | c :: rest => if isJsWs c then countLeadWs rest + 1 else 0

/-- One attempt of the amount pattern at the current position. The optional
    prefix alternatives are `\$` then `usd\s*`; when a prefix matches but no
    digit follows, the prefix-absent attempt also fails (the position's
    character is `$` or `u`, not a digit). -/
def tryAmountAt (cs : List Char) : Option (Nat × List Char × List Char) :=
  match cs with
  | '$' :: rest =>
    (match numAt rest with
     | some (n, int, dec) => some (n + 1, int, dec)
     | Option.none => Option.none)
  | _ =>
    match ciStrip "usd".data cs with
    | some rest =>
      let ws := countLeadWs rest
      (match numAt (rest.drop ws) with
       | some (n, int, dec) => some (3 + ws + n, int, dec)
       | Option.none => Option.none)
    | Option.none => numAt cs

/-- `match.index`, `match[0].length`, and the digit groups of the leftmost
    amount match. -/
structure AmountMatch where
  idx : Nat
  len : Nat
  intDigits : List Char
  decDigits : List Char
deriving DecidableEq, Repr

/-- Exact value of `Number(decPart ? intPart + '.' + decPart : intPart)`.
    (Digit strings of the sizes the pattern admits are always finite.) -/
def amountVal (m : AmountMatch) : ℚ := decToRat m.intDigits m.decDigits

def findAmountAux : List Char → Nat → Option AmountMatch
  | [], _ => Option.none
  | c :: rest, i =>
    match tryAmountAt (c :: rest) with
    | some (n, int, dec) => some ⟨i, n, int, dec⟩
    | Option.none => findAmountAux rest (i + 1)

def findAmount (cs : List Char) : Option AmountMatch := findAmountAux cs 0

/-! ### Category classification -/

/-- `STOPWORD = /^(spent|spend|paid|pay|for|on|rs\.?|₹|inr)$/i`. -/
def isStopword (t : String) : Bool :=
  let l := toLowerStr t
  l == "spent" || l == "spend" || l == "paid" || l == "pay" || l == "for" || l == "on"
    || l == "rs" || l == "rs." || l == "₹" || l == "inr"

def CATEGORY_WORDS : List String :=
  ["food", "dining", "restaurant",
   "grocery",
   "rent", "housing", "mortgage",
   "travel", "transport", "transit", "cab", "uber", "lyft", "ola", "taxi",
   "flight", "hotel", "parking", "toll", "fuel", "gas",
   "clipper", "bart", "muni", "caltrain",
   "bills", "utilities", "electric", "water", "internet", "phone",
   "subscription", "subscriptions", "netflix", "spotify", "youtube", "apple",
   "shopping", "walmart", "amazon", "dollartree", "dollar-tree", "dollar_tree", "dollar",
   "entertainment", "movies", "movie", "comedy", "show", "shows",
   "health", "medical", "pharmacy",
   "education", "gifts"]

def normalizeCategory (cat : String) : String :=
  let c := toLowerStr (jsTrim cat)
  if c == "" then c
  else if c == "walmart" || c == "amazon" || c == "dollartree" || c == "dollar-tree"
      || c == "dollar_tree" then "shopping"
  else if c == "groceries" then "grocery"
  else if c == "mortgage" then "housing"
  else if c == "cab" || c == "uber" || c == "lyft" || c == "ola" || c == "taxi" then "transport"
  else if c == "clipper" || c == "bart" || c == "muni" || c == "caltrain" then "travel"
  else if c == "restaurant" then "dining"
  else if c == "movie" || c == "movies" || c == "comedy" || c == "show" || c == "shows" then
    "entertainment"
  else if c == "electric" || c == "water" || c == "internet" || c == "phone" then "utilities"
  else if c == "subscription" || c == "subscriptions" || c == "netflix" || c == "spotify"
      || c == "youtube" then "subscriptions"
  else c

/-! ### `parseExpenseMessage` -/

/-- The `filtered` token list: before/after segments around the amount
    match, stop-word handling, candidate text, tokenization. -/
def candFiltered (text : String) (m : AmountMatch) : List String :=
  let cs := text.data
  let before := jsTrimL (cs.take m.idx)
  let after := jsTrimL (cs.drop (m.idx + m.len))
  let beforeTokens :=
    (((splitCh ' ' before).filter (· ≠ [])).map String.mk).filter (fun t => !(isStopword t))
  let candidate :=
    collapseWsAux false
      (jsTrimL (if beforeTokens.length = 0 then after else before ++ ' ' :: after))
  (((splitCh ' ' candidate).filter (· ≠ [])).map String.mk).filter (fun t => !(isStopword t))

/-- The category/note assignment on the filtered candidate tokens
    (`|| undefined` maps an empty join to "unset"). -/
def classifyOut (filtered : List String) : Option String × Option String :=
  match filtered with
  | [] => (Option.none, Option.none)
  | f :: rest =>
    let first := toLowerStr f
    if CATEGORY_WORDS.contains first then
      (some (normalizeCategory first),
       let s := joinSp rest
       if s == "" then Option.none else some s)
    else
      (Option.none,
       let s := joinSp (f :: rest)
       if s == "" then Option.none else some s)

/-- The `ParsedExpense` assembled once an amount match with positive value
    is in hand. -/
def parseAfterAmount (meta : MetaOut) (occ : Option DateTok) (text : String)
    (m : AmountMatch) : ParsedExpense :=
  { amount := amountVal m
    currency := some "USD"
    occurredOn := occ
    category := (classifyOut (candFiltered text m)).1
    note := (classifyOut (candFiltered text m)).2
    forPerson := meta.forPerson
    card := meta.card
    paidBy := meta.paidBy
    splitType := some meta.splitType
    splitRatioMe := meta.splitRatioMe
    splitRatioOther := meta.splitRatioOther
    otherParty := meta.otherParty
    otherParties := meta.otherParties
    type := some (meta.type.getD LType.expense)
    account := meta.account
    asset := meta.asset
    liability := meta.liability
    counterparty := meta.counterparty
    direction := meta.direction }

/-- `parseExpenseMessage` from parseMessage.ts. In this exact-arithmetic
    model the parsed amount is always finite, so the source's
    `!Number.isFinite(amount)` disjunct cannot fire. -/
def parseExpenseMessage (textRaw : String) : Option ParsedExpense :=
  let meta := extractMetaTokens (normalize textRaw)
  match parseDateToken meta.cleaned with
  | (occ, text) =>
    if text = "" then Option.none
    else
      match findAmount text.data with
      | Option.none => Option.none
      | some m =>
        if amountVal m ≤ 0 then Option.none
        else some (parseAfterAmount meta occ text m)

/-- The residual text in which the amount is searched: meta tokens and the
    date token removed. -/
def residualText (s : String) : String :=
  (parseDateToken (extractMetaTokens (normalize s)).cleaned).2

/-! ### Allocation engine (`app.ts`, ingest and edit handlers)

    The my-share recomputation (app.ts 215-241 / 416-439), the `forPerson`
    override (246-251 / 442-447) and the reimbursement emission
    (264-352 / 449-553) appear verbatim in both the ingest handler and the
    edit handler; each block is modelled once and used by both handler
    models below. -/

inductive RDirection where
  | they_owe_me
  | i_owe_them
deriving DecidableEq, Repr

/-- `(parsed.otherParties?.length ? parsed.otherParties
      : parsed.otherParty ? [parsed.otherParty] : dflt)
      .map(s => String(s).trim()).filter(Boolean)`
    with `dflt = []` in the my-share block and `dflt = ['vyas']` in the
    emission block. -/
def resolveOthers (p : ParsedExpense) (dflt : List String) : List String :=
  let raw :=
    match p.otherParties with
    | some l => if l.length ≠ 0 then l else (if truthyStr p.otherParty then [p.otherParty.getD ""] else dflt)
    | Option.none => if truthyStr p.otherParty then [p.otherParty.getD ""] else dflt
  (raw.map jsTrim).filter (· ≠ "")

/-- The my-share computation block (app.ts 215-241). -/
def computeMyShare (p : ParsedExpense) : ℚ :=
  let st := p.splitType.getD SplitType.none
  let others := resolveOthers p []
  if st = SplitType.none then p.amount
  else
    let n : Nat := if others.length = 0 then 1 else others.length
    let base := p.amount / (1 + (n : ℚ))
    match st, p.splitRatioMe, p.splitRatioOther with
    | SplitType.ratio, some a, some b => if 0 < a ∧ 0 < b then p.amount * a / (a + b) else base
    | _, _, _ => base

/-- The fully-for-someone-else override (app.ts 246-251):
    `if (parsed.forPerson) { otherParty = otherParty ?? forPerson;
    otherParties = otherParties?.length ? otherParties : [forPerson];
    splitType = 'none'; myAmount = 0 }`. -/
def applyForPerson (p : ParsedExpense) : ParsedExpense :=
  if truthyStr p.forPerson then
    { p with
      otherParty := some (p.otherParty.getD (p.forPerson.getD ""))
      otherParties :=
        match p.otherParties with
        | some l => if l.length ≠ 0 then some l else some [p.forPerson.getD ""]
        | Option.none => some [p.forPerson.getD ""]
      splitType := some SplitType.none
      myAmount := some 0 }
  else p

/-- `parsed` as it stands after the my-share block and the `forPerson`
    override, i.e. the value both handlers persist and emit from. -/
def recomputeParsed (p : ParsedExpense) : ParsedExpense :=
  applyForPerson { p with myAmount := some (computeMyShare p) }

/-- The split arithmetic of the emission block (app.ts 305-318 / 505-522):
    `(myShare, eachOtherShare)` as functions of the stored amount, the split
    metadata and `nOthers = otherParties.length`. -/
def splitMath (amount : ℚ) (st : SplitType) (rm ro : Option ℚ) (nOthers : Nat) : ℚ × ℚ :=
  let denom : ℚ := 1 + (if nOthers = 0 then (1 : ℚ) else (nOthers : ℚ))
  let myShare0 := amount / denom
  let each0 := if 0 < nOthers then (amount - myShare0) / (nOthers : ℚ) else amount - myShare0
  match st, rm, ro with
  | SplitType.ratio, some a, some b =>
    if 0 < a ∧ 0 < b then
      let myShare := amount * a / (a + b)
      let othersTotal := amount - myShare
      (myShare, if 0 < nOthers then othersTotal / (nOthers : ℚ) else othersTotal)
    else (myShare0, each0)
  | _, _, _ => (myShare0, each0)

/-- The fields of the stored expense that the emission block reads
    (`expense.*` on ingest, `updated.*` on edit). -/
structure EmitCtx where
  expenseId : String
  occurredOn : DateTok
  source : String
  fromUser : Option String
  amount : ℚ
  currency : String
  note : Option String
  rawText : String
deriving DecidableEq, Repr

/-- The row handed to `insertReimbursement` (its generated `id`/`createdAt`
    come from the environment and are not modelled). -/
structure ReimbRow where
  occurredOn : DateTok
  source : String
  fromUser : Option String
  expenseId : Option String
  otherParty : String
  direction : RDirection
  amount : ℚ
  currency : String
  note : Option String
  rawText : String
deriving DecidableEq, Repr

def insertReimbursementRow (ctx : EmitCtx) (party : String) (dir : RDirection)
    (amt : ℚ) : ReimbRow :=
  { occurredOn := ctx.occurredOn
    source := ctx.source
    fromUser := ctx.fromUser
    expenseId := some ctx.expenseId
    otherParty := party
    direction := dir
    amount := amt
    currency := ctx.currency
    note := ctx.note
    rawText := ctx.rawText }

/-- The reimbursement emission block (app.ts 264-352 / 449-553), applied to
    the post-override `parsed`. -/
def emitReimbs (ctx : EmitCtx) (p : ParsedExpense) : List ReimbRow :=
  let otherParties := resolveOthers p ["vyas"]
  let otherParty := otherParties.head?.getD "vyas"
  let paidBy := p.paidBy.getD PaidBy.me
  let st := p.splitType.getD SplitType.none
  if truthyStr p.forPerson then
    let benef := otherParties.head?.getD (p.forPerson.getD "")
    if paidBy = PaidBy.me then [insertReimbursementRow ctx benef RDirection.they_owe_me ctx.amount]
    else [insertReimbursementRow ctx benef RDirection.i_owe_them ctx.amount]
  else if st ≠ SplitType.none then
    let shares := splitMath ctx.amount st p.splitRatioMe p.splitRatioOther otherParties.length
    if paidBy = PaidBy.me then
      otherParties.map (fun q => insertReimbursementRow ctx q RDirection.they_owe_me shares.2)
    else [insertReimbursementRow ctx otherParty RDirection.i_owe_them shares.1]
  else []

/-! ### Persisted expense rows and the handler models -/

structure ExpenseRow where
  id : String
  createdAt : String
  occurredOn : DateTok
  source : String
  fromUser : Option String
  rawText : String
  amount : ℚ
  currency : String
  category : Option String
  note : Option String
  card : Option String
  paidBy : PaidBy
  splitType : SplitType
  splitRatioMe : Option ℚ
  splitRatioOther : Option ℚ
  otherParty : Option String
  myAmount : ℚ
deriving DecidableEq, Repr

/-- Environment-supplied inputs of an ingest call: generated id, clock. -/
structure IngestEnv where
  newId : String
  createdAt : String
  today : DateTok
  source : String
  fromUser : Option String
  defaultCurrency : String
deriving Repr

/-- `insertExpense` (expensesRepo.ts): the row built from a parsed message
    (`NUMERIC` round-trips the exact amount). -/
def insertExpenseRow (env : IngestEnv) (text : String) (p : ParsedExpense) : ExpenseRow :=
  { id := env.newId
    createdAt := env.createdAt
    occurredOn := p.occurredOn.getD env.today
    source := env.source
    fromUser := env.fromUser
    rawText := text
    amount := p.amount
    currency := p.currency.getD env.defaultCurrency
    category := p.category
    note := p.note
    card := p.card
    paidBy := p.paidBy.getD PaidBy.me
    splitType := p.splitType.getD SplitType.none
    splitRatioMe := p.splitRatioMe
    splitRatioOther := p.splitRatioOther
    otherParty := p.otherParty
    myAmount := p.myAmount.getD p.amount }

/-- The `POST /api/ingest-message` handler after body validation: parse,
    recompute shares, persist the expense, emit reimbursement rows.
    `none` models the "Could not parse amount from message" outcome. -/
def ingestModel (env : IngestEnv) (text : String) : Option (ExpenseRow × List ReimbRow) :=
  match parseExpenseMessage text with
  | Option.none => Option.none
  | some parsed0 =>
    let parsed := recomputeParsed parsed0
    let expense := insertExpenseRow env text parsed
    let ctx : EmitCtx :=
      { expenseId := expense.id
        occurredOn := expense.occurredOn
        source := expense.source
        fromUser := env.fromUser
        amount := expense.amount
        currency := expense.currency
        note := expense.note
        rawText := text }
    some (expense, emitReimbs ctx parsed)

/-! ### Edit path: `updateExpenseById` and `PUT /api/expenses/:id` -/

/-- The column arguments of `updateExpenseById`; `none` is SQL `NULL`, and
    each column is set with `COALESCE($n, col)`. -/
structure UpdateArgs where
  id : String
  occurredOn : Option DateTok
  amount : Option ℚ
  myAmount : Option ℚ
  category : Option String
  note : Option String
  card : Option String
  paidBy : Option PaidBy
  splitType : Option SplitType
  splitRatioMe : Option ℚ
  splitRatioOther : Option ℚ
  otherParty : Option String
deriving Repr

def applyUpdate (args : UpdateArgs) (e : ExpenseRow) : ExpenseRow :=
  { e with
    occurredOn := args.occurredOn.getD e.occurredOn
    amount := args.amount.getD e.amount
    myAmount := args.myAmount.getD e.myAmount
    category := match args.category with | some c => some c | Option.none => e.category
    note := match args.note with | some n => some n | Option.none => e.note
    card := match args.card with | some c => some c | Option.none => e.card
    paidBy := args.paidBy.getD e.paidBy
    splitType := args.splitType.getD e.splitType
    splitRatioMe := match args.splitRatioMe with | some r => some r | Option.none => e.splitRatioMe
    splitRatioOther :=
      match args.splitRatioOther with | some r => some r | Option.none => e.splitRatioOther
    otherParty := match args.otherParty with | some o => some o | Option.none => e.otherParty }

/-- `UPDATE expenses SET ... WHERE id = $1 RETURNING ...` over a list of
    rows (`id` is the primary key, so at most the first match is updated);
    returns the updated row (or `none`) and the table afterwards. -/
def updateExpenseById : List ExpenseRow → UpdateArgs → Option ExpenseRow × List ExpenseRow
  | [], _ => (Option.none, [])
  | e :: rest, args =>
    if e.id = args.id then (some (applyUpdate args e), applyUpdate args e :: rest)
    else
      let (r, rest2) := updateExpenseById rest args
      (r, e :: rest2)

/-- The two tables the edit handler touches. -/
structure Store where
  expenses : List ExpenseRow
  reimbursements : List ReimbRow
deriving Repr

inductive PutOutcome where
  | badRequest (error : String)
  | notFound
  | ok (expense : ExpenseRow)
deriving Repr

structure PutBody where
  text : String
  occurredOn : Option String
deriving Repr

/-- The `PUT /api/expenses/:id` handler: parse the new text, recompute the
    allocation, update the primary row, and only after a successful update
    delete-and-reinsert the expense's reimbursement rows. -/
def putExpenseHandler (st : Store) (idRaw : String) (body : PutBody) : PutOutcome × Store :=
  let id := jsTrim idRaw
  if id = "" then (PutOutcome.badRequest "Missing id", st)
  else
    match parseExpenseMessage body.text with
    | Option.none => (PutOutcome.badRequest "Could not parse amount from message", st)
    | some parsed0 =>
      let parsed1 :=
        match body.occurredOn with
        | some o => if o ≠ "" then { parsed0 with occurredOn := some (DateTok.raw o) } else parsed0
        | Option.none => parsed0
      let parsed := recomputeParsed parsed1
      let otherParties := resolveOthers parsed ["vyas"]
      let otherParty := otherParties.head?.getD "vyas"
      let paidBy := parsed.paidBy.getD PaidBy.me
      let splitType := parsed.splitType.getD SplitType.none
      let args : UpdateArgs :=
        { id := id
          occurredOn := parsed.occurredOn
          amount := some parsed.amount
          myAmount := some (parsed.myAmount.getD parsed.amount)
          category := parsed.category
          note := parsed.note
          card := parsed.card
          paidBy := some paidBy
          splitType := some splitType
          splitRatioMe := parsed.splitRatioMe
          splitRatioOther := parsed.splitRatioOther
          otherParty := some otherParty }
      match updateExpenseById st.expenses args with
      | (Option.none, exps) => (PutOutcome.notFound, { st with expenses := exps })
      | (some updated, exps) =>
        let kept := st.reimbursements.filter (fun r => r.expenseId ≠ some id)
        let ctx : EmitCtx :=
          { expenseId := updated.id
            occurredOn := updated.occurredOn
            source := updated.source
            fromUser := updated.fromUser
            amount := updated.amount
            currency := updated.currency
            note := updated.note
            rawText := body.text }
        (PutOutcome.ok updated, { expenses := exps, reimbursements := kept ++ emitReimbs ctx parsed })

/-! ### General ledger (`ledgerRepo.ts`) and `POST /api/ledger` -/

structure LedgerEntry where
  id : String
  occurredOn : DateTok
  source : String
  fromUser : Option String
  rawText : String
  type : LType
  amount : ℚ
  currency : String
  direction : Option LDirection
  counterparty : Option String
  account : Option String
  asset : Option String
  liability : Option String
  note : Option String
deriving DecidableEq, Repr

/-- The `SUM(CASE ...)` scrutinee of `getReceivableBalances`. -/
def recvCase (e : LedgerEntry) : ℚ :=
  if e.type = LType.receivable ∧ e.direction = some LDirection.i_lent then e.amount
  else if e.type = LType.receivable ∧ e.direction = some LDirection.collect then -e.amount
  else if e.type = LType.receivable ∧ e.direction = some LDirection.i_borrowed then -e.amount
  else if e.type = LType.receivable ∧ e.direction = some LDirection.repay then e.amount
  else 0

/-- The `WHERE` clause of `getReceivableBalances`: matching currency,
    `type = 'receivable'`, `counterparty IS NOT NULL AND counterparty <> ''`. -/
def recvRows (entries : List LedgerEntry) (cur : String) : List LedgerEntry :=
  entries.filter (fun e =>
    e.currency == cur && e.type == LType.receivable && truthyStr e.counterparty)

def cpOf (e : LedgerEntry) : String := e.counterparty.getD ""

/-- Distinct values in first-appearance order (`GROUP BY`). -/
def dedupSeen (seen : List String) : List String → List String
  | [] => []
  | x :: xs => if x ∈ seen then dedupSeen seen xs else x :: dedupSeen (x :: seen) xs

def dedupFirst (l : List String) : List String := dedupSeen [] l

def insertSorted (x : String) : List String → List String
  | [] => [x]
  | y :: ys => if x ≤ y then x :: y :: ys else y :: insertSorted x ys

/-- `ORDER BY counterparty ASC`. -/
def sortStrings (l : List String) : List String := l.foldr insertSorted []

structure RecvBalance where
  counterparty : String
  net : ℚ
  theyOwe : ℚ
  iOwe : ℚ
deriving DecidableEq, Repr

/-- `getReceivableBalances` (ledgerRepo.ts 153-190): group the filtered
    `receivable` rows by counterparty, net them with the sign convention of
    the `CASE`, and clamp into `theyOwe`/`iOwe`. -/
def getReceivableBalances (entries : List LedgerEntry) (cur : String) : List RecvBalance :=
  let rows := recvRows entries cur
  (sortStrings (dedupFirst (rows.map cpOf))).map (fun cp =>
    let net := ((rows.filter (fun e => cpOf e == cp)).map recvCase).sum
    { counterparty := cp
      net := net
      theyOwe := if 0 < net then net else 0
      iOwe := if net < 0 then -net else 0 })

inductive LedgerOutcome where
  | badRequest (error : String)
  | ok (entry : LedgerEntry)
deriving Repr

structure LedgerBody where
  text : String
  fromUser : Option String
deriving Repr

structure LedgerEnv where
  newId : String
  today : DateTok
  defaultCurrency : String
deriving Repr

def allowedLedgerTypes : List LType :=
  [LType.income, LType.transfer, LType.investment, LType.liability, LType.receivable]

/-- The `POST /api/ledger` handler: parse, validate the type, reject a
    `receivable` entry missing `counterparty` or `direction` before any
    insertion, otherwise append the ledger entry. -/
def postLedgerHandler (env : LedgerEnv) (body : LedgerBody) (entries : List LedgerEntry) :
    LedgerOutcome × List LedgerEntry :=
  if jsTrim body.text = "" then (LedgerOutcome.badRequest "Missing text", entries)
  else
    match parseExpenseMessage body.text with
    | Option.none => (LedgerOutcome.badRequest "Could not parse amount from message", entries)
    | some parsed =>
      let type := parsed.type.getD LType.income
      if ¬ allowedLedgerTypes.contains type then
        (LedgerOutcome.badRequest "Unsupported ledger type", entries)
      else if type = LType.receivable ∧ ¬ truthyStr parsed.counterparty then
        (LedgerOutcome.badRequest "Missing counterparty (use counterparty:<name>)", entries)
      else if type = LType.receivable ∧ parsed.direction = Option.none then
        (LedgerOutcome.badRequest "Missing direction (use direction:i_borrowed|i_lent|repay|collect)",
          entries)
      else
        let entry : LedgerEntry :=
          { id := env.newId
            occurredOn := parsed.occurredOn.getD env.today
            source := "message"
            fromUser := body.fromUser
            rawText := body.text
            type := type
            amount := parsed.amount
            currency := parsed.currency.getD env.defaultCurrency
            direction := parsed.direction
            counterparty := parsed.counterparty
            account := parsed.account
            asset := parsed.asset
            liability := parsed.liability
            note := parsed.note }
        (LedgerOutcome.ok entry, entries ++ [entry])

/-! ## Helper lemmas -/

/-- Sum of a direction's amounts over one counterparty's receivable entries
    in a given currency (the reference quantity of the netting claim). -/
def sumDir (entries : List LedgerEntry) (cur cp : String) (d : LDirection) : ℚ :=
  ((entries.filter (fun e =>
      e.currency == cur && e.type == LType.receivable && e.counterparty == some cp
        && e.direction == some d)).map (fun e => e.amount)).sum

lemma filter_map_sum (l : List LedgerEntry) (p : LedgerEntry → Bool) (f : LedgerEntry → ℚ) :
    ((l.filter p).map f).sum = (l.map (fun e => if p e then f e else 0)).sum := by
  induction l with
  | nil => simp
  | cons e es ih =>
    by_cases h : p e <;> simp [List.filter_cons, h, ih]

lemma sum_map_comb (l : List LedgerEntry) (f g1 g2 g3 g4 : LedgerEntry → ℚ)
    (h : ∀ e, f e = g1 e - g2 e - g3 e + g4 e) :
    (l.map f).sum = (l.map g1).sum - (l.map g2).sum - (l.map g3).sum + (l.map g4).sum := by
  induction l with
  | nil => simp
  | cons e es ih =>
    simp only [List.map_cons, List.sum_cons, h e, ih]
    ring

lemma recv_entry_contrib (cur cp : String) (hcp : cp ≠ "") (e : LedgerEntry) :
    (if (e.currency == cur && e.type == LType.receivable && truthyStr e.counterparty)
        && (cpOf e == cp) then recvCase e else 0)
    = (if (e.currency == cur && e.type == LType.receivable && e.counterparty == some cp
          && e.direction == some LDirection.i_lent) then e.amount else 0)
      - (if (e.currency == cur && e.type == LType.receivable && e.counterparty == some cp
          && e.direction == some LDirection.collect) then e.amount else 0)
      - (if (e.currency == cur && e.type == LType.receivable && e.counterparty == some cp
          && e.direction == some LDirection.i_borrowed) then e.amount else 0)
      + (if (e.currency == cur && e.type == LType.receivable && e.counterparty == some cp
          && e.direction == some LDirection.repay) then e.amount else 0) := by
  rcases hc : e.counterparty with _ | s
  · simp [truthyStr, hc]
  · by_cases hs : s = cp
    · subst hs
      by_cases hcur : e.currency = cur
      · by_cases hty : e.type = LType.receivable
        · rcases hd : e.direction with _ | d
          · simp [recvCase, truthyStr, cpOf, hc, hcur, hty, hd, hcp]
          · cases d <;>
              simp [recvCase, truthyStr, cpOf, hc, hcur, hty, hd, hcp]
        · simp [recvCase, truthyStr, cpOf, hc, hcur, hty, hcp]
      · simp [recvCase, truthyStr, cpOf, hc, hcur]
    · simp [truthyStr, cpOf, hc, hs]

lemma mem_insertSorted {y x : String} {l : List String} (h : y ∈ insertSorted x l) :
    y = x ∨ y ∈ l := by
  induction l with
  | nil =>
    simp only [insertSorted, List.mem_singleton] at h
    exact Or.inl h
  | cons z zs ih =>
    by_cases hle : x ≤ z
    · simpa [insertSorted, hle] using h
    · simp only [insertSorted, if_neg hle, List.mem_cons] at h
      rcases h with h | h
      · exact Or.inr (by simp [h])
      · rcases ih h with h' | h'
        · exact Or.inl h'
        · exact Or.inr (by simp [h'])

lemma mem_sortStrings {y : String} {l : List String} (h : y ∈ sortStrings l) : y ∈ l := by
  induction l with
  | nil => simp only [sortStrings, List.foldr_nil, List.not_mem_nil] at h
  | cons z zs ih =>
    simp only [sortStrings, List.foldr_cons] at h
    rcases mem_insertSorted h with h' | h'
    · simp [h']
    · exact List.mem_cons_of_mem _ (ih h')

lemma mem_dedupSeen {y : String} {seen l : List String} (h : y ∈ dedupSeen seen l) : y ∈ l := by
  induction l generalizing seen with
  | nil => simp only [dedupSeen, List.not_mem_nil] at h
  | cons z zs ih =>
    by_cases hz : z ∈ seen
    · simp only [dedupSeen, if_pos hz] at h
      exact List.mem_cons_of_mem _ (ih h)
    · simp only [dedupSeen, if_neg hz, List.mem_cons] at h
      rcases h with h | h
      · simp [h]
      · exact List.mem_cons_of_mem _ (ih h)

lemma recv_cp_ne_empty {entries : List LedgerEntry} {cur cp : String}
    (h : cp ∈ sortStrings (dedupFirst ((recvRows entries cur).map cpOf))) : cp ≠ "" := by
  have h1 := mem_dedupSeen (mem_sortStrings h)
  rcases List.mem_map.mp h1 with ⟨e, he, rfl⟩
  have hf := List.of_mem_filter he
  rcases hc : e.counterparty with _ | s
  · simp [truthyStr, hc] at hf
  · simp only [cpOf, hc, Option.getD_some]
    intro h0
    subst h0
    simp [truthyStr, hc] at hf

/-- A text that trims to nothing cannot parse (its residual is empty, so no
    amount match exists). -/
lemma parse_of_blank (t : String) (h : jsTrim t = "") :
    parseExpenseMessage t = Option.none := by
  have hdata : jsTrimL t.data = [] := by
    have h' := congrArg String.data h
    simpa [jsTrim] using h'
  have hn : normalize t = "" := by
    simp [normalize, hdata, collapseWsAux]
  rw [parseExpenseMessage, hn]
  rfl

/-! ## Claims -/

/-- C5: for every history of receivable ledger entries and every reported
    counterparty balance, `net = sum(i_lent) - sum(collect) - sum(i_borrowed)
    + sum(repay)` over that counterparty's entries in the queried currency,
    with `theyOwe = max(net, 0)` and `iOwe = max(-net, 0)`. -/
theorem receivable_balances_net (entries : List LedgerEntry) (cur : String)
    (b : RecvBalance) (hb : b ∈ getReceivableBalances entries cur) :
    b.net = sumDir entries cur b.counterparty LDirection.i_lent
        - sumDir entries cur b.counterparty LDirection.collect
        - sumDir entries cur b.counterparty LDirection.i_borrowed
        + sumDir entries cur b.counterparty LDirection.repay
    ∧ b.theyOwe = max b.net 0 ∧ b.iOwe = max (-b.net) 0 := by
  rcases List.mem_map.mp hb with ⟨cp, hcp_mem, rfl⟩
  have hne : cp ≠ "" := recv_cp_ne_empty hcp_mem
  refine ⟨?_, ?_, ?_⟩
  · show (((recvRows entries cur).filter (fun e => cpOf e == cp)).map recvCase).sum = _
    rw [show ((recvRows entries cur).filter (fun e => cpOf e == cp))
        = entries.filter (fun e =>
            (e.currency == cur && e.type == LType.receivable && truthyStr e.counterparty)
              && (cpOf e == cp)) from by
      simp only [recvRows, List.filter_filter]
      exact List.filter_congr (fun e _ => by
        cases h1 : (cpOf e == cp) <;> cases h2 : (e.currency == cur)
          <;> cases h3 : (e.type == LType.receivable) <;> cases h4 : truthyStr e.counterparty
          <;> simp [h1, h2, h3, h4])]
    rw [filter_map_sum]
    unfold sumDir
    rw [filter_map_sum, filter_map_sum, filter_map_sum, filter_map_sum]
    exact sum_map_comb _ _ _ _ _ _ (recv_entry_contrib cur cp hne)
  · show (if (0:ℚ) < _ then _ else _) = _
    rcases le_or_lt (((recvRows entries cur).filter (fun e => cpOf e == cp)).map recvCase).sum 0
        with h | h
    · simp [not_lt.mpr h, max_eq_right h]
    · simp [h, max_eq_left h.le]
  · show (if _ < (0:ℚ) then _ else _) = _
    rcases le_or_lt 0 (((recvRows entries cur).filter (fun e => cpOf e == cp)).map recvCase).sum
        with h | h
    · simp [not_lt.mpr h, max_eq_right (neg_nonpos.mpr h)]
    · simp [h, max_eq_left (neg_nonneg.mpr h.le)]

/-- The scenario entry of C5's instance. -/
def kevinEntry : LedgerEntry :=
  { id := "e1"
    occurredOn := DateTok.iso "2026" "02" "01"
    source := "message"
    fromUser := Option.none
    rawText := "took 1200 type:receivable counterparty:kevin direction:i_borrowed"
    type := LType.receivable
    amount := 1200
    currency := "USD"
    direction := some LDirection.i_borrowed
    counterparty := some "kevin"
    account := Option.none
    asset := Option.none
    liability := Option.none
    note := Option.none }

/-- C5 witness: a single `i_borrowed` entry of 1200 against kevin yields the
    balance `net = -1200`, `theyOwe = 0`, `iOwe = 1200`, and the netting
    theorem instantiates at it. -/
theorem receivable_balances_net_witness :
    getReceivableBalances [kevinEntry] "USD"
      = [{ counterparty := "kevin", net := -1200, theyOwe := 0, iOwe := 1200 }]
    ∧ ((-1200 : ℚ) = sumDir [kevinEntry] "USD" "kevin" LDirection.i_lent
        - sumDir [kevinEntry] "USD" "kevin" LDirection.collect
        - sumDir [kevinEntry] "USD" "kevin" LDirection.i_borrowed
        + sumDir [kevinEntry] "USD" "kevin" LDirection.repay
      ∧ (0:ℚ) = max (-1200) 0 ∧ (1200:ℚ) = max (-(-1200)) 0) := by
  have hlist : getReceivableBalances [kevinEntry] "USD"
      = [{ counterparty := "kevin", net := -1200, theyOwe := 0, iOwe := 1200 }] := by
    norm_num [getReceivableBalances, kevinEntry, recvRows, recvCase, cpOf, truthyStr,
      dedupFirst, dedupSeen, sortStrings, insertSorted, List.filter_cons,
      show ("kevin" : String) ≠ "" from by decide]
    decide
  refine ⟨hlist, ?_⟩
  have h := receivable_balances_net [kevinEntry] "USD"
    { counterparty := "kevin", net := -1200, theyOwe := 0, iOwe := 1200 }
    (hlist ▸ List.mem_singleton_self _)
  exact h

/-- C6: a ledger submission whose parsed type is `receivable` and which is
    missing `counterparty` or `direction` is rejected with a descriptive
    error, and no ledger entry is stored (the entries table is returned
    unchanged); the missing field is never defaulted. -/
theorem receivable_missing_field_rejected (env : LedgerEnv) (body : LedgerBody)
    (entries : List LedgerEntry) (parsed : ParsedExpense)
    (hp : parseExpenseMessage body.text = some parsed)
    (hty : parsed.type.getD LType.income = LType.receivable)
    (hmiss : ¬ truthyStr parsed.counterparty ∨ parsed.direction = Option.none) :
    ∃ msg, postLedgerHandler env body entries = (LedgerOutcome.badRequest msg, entries) := by
  have hblank : ¬ (jsTrim body.text = "") := by
    intro h0
    rw [parse_of_blank body.text h0] at hp
    exact Option.noConfusion hp
  have hallowed : LType.receivable ∈ allowedLedgerTypes := by decide
  by_cases hcp : truthyStr parsed.counterparty
  · rcases hmiss with hmiss | hdir
    · exact absurd hcp hmiss
    · refine ⟨"Missing direction (use direction:i_borrowed|i_lent|repay|collect)", ?_⟩
      simp [postLedgerHandler, if_neg hblank, hp, hty, hallowed, hcp, hdir]
  · refine ⟨"Missing counterparty (use counterparty:<name>)", ?_⟩
    simp [postLedgerHandler, if_neg hblank, hp, hty, hallowed, hcp]

/-- The parse of the C6 witness text. -/
def demoReceivableParsed : ParsedExpense :=
  { amount := 1200
    currency := some "USD"
    note := some "took"
    type := some LType.receivable
    direction := some LDirection.i_borrowed
    splitType := some SplitType.none }

/-- C6 witness: a `type:receivable` message without `counterparty:` is
    rejected and the (empty) table stays empty. -/
theorem receivable_missing_field_rejected_witness :
    ∃ msg,
      postLedgerHandler
        { newId := "L1", today := DateTok.iso "2026" "02" "01", defaultCurrency := "USD" }
        { text := "took 1200 type:receivable direction:i_borrowed", fromUser := Option.none }
        []
      = (LedgerOutcome.badRequest msg, []) :=
  receivable_missing_field_rejected _ _ [] demoReceivableParsed
    (by decide) (by decide) (Or.inl (by decide))

lemma updateExpenseById_not_found (l : List ExpenseRow) (args : UpdateArgs)
    (h : ∀ e ∈ l, e.id ≠ args.id) :
    updateExpenseById l args = (Option.none, l) := by
  induction l with
  | nil => rfl
  | cons e rest ih =>
    have hne : e.id ≠ args.id := h e (by simp)
    simp only [updateExpenseById, if_neg hne,
      ih (fun x hx => h x (List.mem_cons_of_mem _ hx))]

/-- C10: editing an expense whose id does not exist yields the not-found
    outcome and leaves the whole store (expenses and reimbursements)
    unchanged: the reimbursement delete-and-reinsert only runs after a
    successful update of the primary record. -/
theorem edit_not_found_state_unchanged (st : Store) (idRaw : String) (body : PutBody)
    (hid : jsTrim idRaw ≠ "")
    (hparse : parseExpenseMessage body.text ≠ Option.none)
    (hmiss : ∀ e ∈ st.expenses, e.id ≠ jsTrim idRaw) :
    putExpenseHandler st idRaw body = (PutOutcome.notFound, st) := by
  unfold putExpenseHandler
  rw [if_neg hid]
  cases hp : parseExpenseMessage body.text with
  | none => exact absurd hp hparse
  | some parsed0 =>
    simp only
    rw [updateExpenseById_not_found st.expenses _ (fun e he => hmiss e he)]

/-- A concrete stored expense and dependent reimbursement for the C10 witness. -/
def demoStore : Store :=
  { expenses :=
      [{ id := "a", createdAt := "t0", occurredOn := DateTok.iso "2026" "01" "01",
         source := "message", fromUser := Option.none, rawText := "food 10",
         amount := 10, currency := "USD", category := some "food", note := Option.none,
         card := Option.none, paidBy := PaidBy.me, splitType := SplitType.none,
         splitRatioMe := Option.none, splitRatioOther := Option.none,
         otherParty := Option.none, myAmount := 10 }]
    reimbursements :=
      [{ occurredOn := DateTok.iso "2026" "01" "01", source := "message",
         fromUser := Option.none, expenseId := some "a", otherParty := "vyas",
         direction := RDirection.they_owe_me, amount := 5, currency := "USD",
         note := Option.none, rawText := "food 10" }] }

/-- C10 witness: editing the missing id "b" in a store holding expense "a"
    and its reimbursement returns not-found with the store intact. -/
theorem edit_not_found_state_unchanged_witness :
    putExpenseHandler demoStore "b" { text := "food 12", occurredOn := Option.none }
      = (PutOutcome.notFound, demoStore) :=
  edit_not_found_state_unchanged demoStore "b" { text := "food 12", occurredOn := Option.none }
    (by decide) (by decide) (by decide)

lemma splitMath_fst_pos (amount : ℚ) (st : SplitType) (rm ro : Option ℚ) (n : Nat)
    (hA : 0 < amount) : 0 < (splitMath amount st rm ro n).1 := by
  have hd : (0:ℚ) < 1 + (if n = 0 then (1:ℚ) else (n : ℚ)) := by
    by_cases hn : n = 0
    · rw [if_pos hn]
      norm_num
    · have h1 : (0:ℚ) < (n : ℚ) := by exact_mod_cast Nat.pos_of_ne_zero hn
      rw [if_neg hn]
      linarith
  have hbase : 0 < amount / (1 + (if n = 0 then (1:ℚ) else (n : ℚ))) := div_pos hA hd
  unfold splitMath
  rcases st with _ | _ | _ <;> rcases rm with _ | a <;> rcases ro with _ | b <;>
      simp only [] <;> try exact hbase
  by_cases hab : 0 < a ∧ 0 < b
  · rw [if_pos hab]
    obtain ⟨ha, hb⟩ := hab
    have hsum : (0:ℚ) < a + b := by linarith
    show 0 < amount * a / (a + b)
    positivity
  · rw [if_neg hab]
    exact hbase

lemma splitMath_snd_pos (amount : ℚ) (st : SplitType) (rm ro : Option ℚ) (n : Nat)
    (hA : 0 < amount) (hn : 0 < n) : 0 < (splitMath amount st rm ro n).2 := by
  have hnq : (0:ℚ) < (n : ℚ) := by exact_mod_cast hn
  have hne : n ≠ 0 := Nat.pos_iff_ne_zero.mp hn
  have hrem : 0 < amount - amount / (1 + (n : ℚ)) := by
    have hd : (0:ℚ) < 1 + (n : ℚ) := by linarith
    have heq : amount - amount / (1 + (n : ℚ)) = amount * (n : ℚ) / (1 + (n : ℚ)) := by
      field_simp
      ring
    rw [heq]
    positivity
  have hbase : 0 < (amount - amount / (1 + (if n = 0 then (1:ℚ) else (n : ℚ)))) / (n : ℚ) := by
    rw [if_neg hne]
    exact div_pos hrem hnq
  unfold splitMath
  rcases st with _ | _ | _ <;> rcases rm with _ | a <;> rcases ro with _ | b <;>
      simp only [if_pos hn] <;> try exact hbase
  by_cases hab : 0 < a ∧ 0 < b
  · rw [if_pos hab]
    obtain ⟨ha, hb⟩ := hab
    have hsum : (0:ℚ) < a + b := by linarith
    have hrem2 : 0 < amount - amount * a / (a + b) := by
      have heq : amount - amount * a / (a + b) = amount * b / (a + b) := by
        field_simp
        ring
      rw [heq]
      positivity
    show 0 < (amount - amount * a / (a + b)) / (n : ℚ)
    exact div_pos hrem2 hnq
  · rw [if_neg hab]
    exact hbase

lemma emitReimbs_amount_pos (ctx : EmitCtx) (q : ParsedExpense) (hA : 0 < ctx.amount) :
    ∀ r ∈ emitReimbs ctx q, 0 < r.amount := by
  intro r hr
  simp only [emitReimbs] at hr
  by_cases hfp : truthyStr q.forPerson
  · rw [if_pos hfp] at hr
    by_cases hpb : q.paidBy.getD PaidBy.me = PaidBy.me
    · rw [if_pos hpb, List.mem_singleton] at hr
      subst hr
      exact hA
    · rw [if_neg hpb, List.mem_singleton] at hr
      subst hr
      exact hA
  · rw [if_neg hfp] at hr
    by_cases hst : q.splitType.getD SplitType.none ≠ SplitType.none
    · rw [if_pos hst] at hr
      by_cases hpb : q.paidBy.getD PaidBy.me = PaidBy.me
      · rw [if_pos hpb] at hr
        rcases List.mem_map.mp hr with ⟨x, hx, rfl⟩
        have hn : 0 < (resolveOthers q ["vyas"]).length := List.length_pos.mpr (by
          intro h0
          rw [h0] at hx
          exact List.not_mem_nil x hx)
        exact splitMath_snd_pos ctx.amount (q.splitType.getD SplitType.none)
          q.splitRatioMe q.splitRatioOther _ hA hn
      · rw [if_neg hpb, List.mem_singleton] at hr
        subst hr
        exact splitMath_fst_pos ctx.amount (q.splitType.getD SplitType.none)
          q.splitRatioMe q.splitRatioOther _ hA
    · rw [if_neg hst] at hr
      exact absurd hr (List.not_mem_nil r)

lemma parse_amount_pos (s : String) (q : ParsedExpense)
    (h : parseExpenseMessage s = some q) : 0 < q.amount := by
  simp only [parseExpenseMessage] at h
  rcases hpd : parseDateToken (extractMetaTokens (normalize s)).cleaned with ⟨occ, text⟩
  rw [hpd] at h
  simp only at h
  by_cases ht : text = ""
  · rw [if_pos ht] at h
    exact absurd h (by simp)
  · rw [if_neg ht] at h
    rcases hf : findAmount text.data with _ | m
    · rw [hf] at h
      exact absurd h (by simp)
    · rw [hf] at h
      simp only at h
      by_cases hle : amountVal m ≤ 0
      · rw [if_pos hle] at h
        exact absurd h (by simp)
      · rw [if_neg hle] at h
        have hq : parseAfterAmount (extractMetaTokens (normalize s)) occ text m = q :=
          Option.some.inj h
        have hval : q.amount = amountVal m := by
          rw [← hq]
          rfl
        rw [hval]
        exact lt_of_not_le hle

/-- C7: the parser only hands the allocation engine amounts `> 0`, and every
    peer-debt record the allocation emits (for-person full amount,
    `eachOtherShare` in the paid-by-me split case, `myShare` in the
    paid-by-other case, ratio splits included) has a strictly positive
    amount. -/
theorem reimbursement_amounts_positive (ctx : EmitCtx) (p : ParsedExpense)
    (hctx : ctx.amount = p.amount) (hA : 0 < p.amount) :
    (∀ s q, parseExpenseMessage s = some q → 0 < q.amount)
    ∧ ∀ r ∈ emitReimbs ctx (recomputeParsed p), 0 < r.amount :=
  ⟨fun s q h => parse_amount_pos s q h,
   emitReimbs_amount_pos ctx (recomputeParsed p) (by rw [hctx]; exact hA)⟩

def demoRatioParsed : ParsedExpense :=
  { amount := 90
    currency := some "USD"
    category := some "food"
    paidBy := some PaidBy.me
    type := some LType.expense
    splitType := some SplitType.ratio
    splitRatioMe := some 2
    splitRatioOther := some 1
    otherParty := some "vyas"
    otherParties := some ["vyas"] }

def demoRatioCtx : EmitCtx :=
  { expenseId := "x1"
    occurredOn := DateTok.iso "2026" "02" "01"
    source := "message"
    fromUser := Option.none
    amount := 90
    currency := "USD"
    note := Option.none
    rawText := "food 90 paidby:me split:2/1 other:vyas" }

/-- C7 witness at the ratio-split expense `food 90 paidby:me split:2/1
    other:vyas`. -/
theorem reimbursement_amounts_positive_witness :
    (∀ s q, parseExpenseMessage s = some q → 0 < q.amount)
    ∧ ∀ r ∈ emitReimbs demoRatioCtx (recomputeParsed demoRatioParsed), 0 < r.amount :=
  reimbursement_amounts_positive demoRatioCtx demoRatioParsed rfl (by decide)

lemma resolveOthers_myAmount (p : ParsedExpense) (x : Option ℚ) (dflt : List String) :
    resolveOthers { p with myAmount := x } dflt = resolveOthers p dflt := rfl

lemma recompute_of_not_forPerson (p : ParsedExpense) (hfp : truthyStr p.forPerson = false) :
    recomputeParsed p = { p with myAmount := some (computeMyShare p) } := by
  unfold recomputeParsed applyForPerson
  have h : ¬ (truthyStr ({ p with myAmount := some (computeMyShare p) }
      : ParsedExpense).forPerson = true) := by
    show ¬ (truthyStr p.forPerson = true)
    rw [hfp]
    simp
  rw [if_neg h]

lemma emitReimbs_other_paid (ctx : EmitCtx) (q : ParsedExpense) (o : String)
    (hfp : truthyStr q.forPerson = false)
    (hst : q.splitType.getD SplitType.none ≠ SplitType.none)
    (hpb : q.paidBy.getD PaidBy.me ≠ PaidBy.me)
    (ho : resolveOthers q ["vyas"] = [o]) :
    emitReimbs ctx q = [insertReimbursementRow ctx o RDirection.i_owe_them
      (splitMath ctx.amount (q.splitType.getD SplitType.none) q.splitRatioMe
        q.splitRatioOther 1).1] := by
  unfold emitReimbs
  dsimp only
  rw [ho]
  rw [if_neg (by rw [hfp]; exact Bool.false_ne_true)]
  rw [if_pos hst, if_neg hpb]
  rfl

lemma emitReimbs_me_paid (ctx : EmitCtx) (q : ParsedExpense)
    (hfp : truthyStr q.forPerson = false)
    (hst : q.splitType.getD SplitType.none ≠ SplitType.none)
    (hpb : q.paidBy.getD PaidBy.me = PaidBy.me) :
    emitReimbs ctx q = (resolveOthers q ["vyas"]).map (fun x =>
      insertReimbursementRow ctx x RDirection.they_owe_me
        (splitMath ctx.amount (q.splitType.getD SplitType.none) q.splitRatioMe
          q.splitRatioOther (resolveOthers q ["vyas"]).length).2) := by
  unfold emitReimbs
  dsimp only
  rw [if_neg (by rw [hfp]; exact Bool.false_ne_true)]
  rw [if_pos hst, if_pos hpb]

lemma emitReimbs_forPerson (ctx : EmitCtx) (q : ParsedExpense)
    (hfp : truthyStr q.forPerson = true) :
    emitReimbs ctx q = [insertReimbursementRow ctx
      ((resolveOthers q ["vyas"]).head?.getD (q.forPerson.getD ""))
      (if q.paidBy.getD PaidBy.me = PaidBy.me then RDirection.they_owe_me
       else RDirection.i_owe_them)
      ctx.amount] := by
  unfold emitReimbs
  dsimp only
  rw [if_pos hfp]
  by_cases hpb : q.paidBy.getD PaidBy.me = PaidBy.me
  · rw [if_pos hpb, if_pos hpb]
  · rw [if_neg hpb, if_neg hpb]

/-- With one named other party (or the default), both `others` lists of the
    my-share block agree up to the default case. -/
lemma resolveOthers_cases (p : ParsedExpense) (o : String)
    (h : resolveOthers p ["vyas"] = [o]) :
    resolveOthers p [] = [o] ∨ resolveOthers p [] = [] := by
  unfold resolveOthers at h ⊢
  rcases hop : p.otherParties with _ | l
  · rw [hop] at h
    dsimp only at h ⊢
    by_cases ht : truthyStr p.otherParty = true
    · rw [if_pos ht] at h ⊢
      exact Or.inl h
    · right
      rw [if_neg ht]
      rfl
  · rw [hop] at h
    dsimp only at h ⊢
    by_cases hl : l.length ≠ 0
    · rw [if_pos hl] at h ⊢
      exact Or.inl h
    · rw [if_neg hl] at h ⊢
      by_cases ht : truthyStr p.otherParty = true
      · rw [if_pos ht] at h ⊢
        exact Or.inl h
      · right
        rw [if_neg ht]
        rfl

lemma splitMath_equal (A : ℚ) (rm ro : Option ℚ) (n : Nat) :
    splitMath A SplitType.equal rm ro n =
      (A / (1 + (if n = 0 then (1:ℚ) else (n : ℚ))),
       if 0 < n then (A - A / (1 + (if n = 0 then (1:ℚ) else (n : ℚ)))) / (n : ℚ)
       else A - A / (1 + (if n = 0 then (1:ℚ) else (n : ℚ)))) := by
  unfold splitMath
  rcases rm with _ | a <;> rcases ro with _ | b <;> rfl

lemma splitMath_ratio (A a b : ℚ) (n : Nat) (ha : 0 < a) (hb : 0 < b) :
    splitMath A SplitType.ratio (some a) (some b) n =
      (A * a / (a + b),
       if 0 < n then (A - A * a / (a + b)) / (n : ℚ) else A - A * a / (a + b)) := by
  unfold splitMath
  simp only []
  rw [if_pos ⟨ha, hb⟩]

lemma computeMyShare_equal_single (p : ParsedExpense) (o : String)
    (hst : p.splitType = some SplitType.equal)
    (hone : resolveOthers p ["vyas"] = [o]) :
    computeMyShare p = p.amount / 2 := by
  unfold computeMyShare
  rw [hst]
  simp only [Option.getD_some]
  rw [if_neg (by decide : ¬ (SplitType.equal = SplitType.none))]
  have hn : (if (resolveOthers p []).length = 0 then 1 else (resolveOthers p []).length) = 1 := by
    rcases resolveOthers_cases p o hone with h | h <;> rw [h] <;> rfl
  rw [hn]
  rcases p.splitRatioMe with _ | a <;> rcases p.splitRatioOther with _ | b <;>
    · show p.amount / (1 + ((1 : Nat) : ℚ)) = p.amount / 2
      norm_num

lemma computeMyShare_ratio (p : ParsedExpense) (a b : ℚ)
    (hst : p.splitType = some SplitType.ratio)
    (hrm : p.splitRatioMe = some a) (hro : p.splitRatioOther = some b)
    (ha : 0 < a) (hb : 0 < b) :
    computeMyShare p = p.amount * a / (a + b) := by
  unfold computeMyShare
  rw [hst, hrm, hro]
  simp only [Option.getD_some]
  rw [if_neg (by decide : ¬ (SplitType.ratio = SplitType.none))]
  rw [if_pos ⟨ha, hb⟩]

/-- C1: an expense allocated with an effective `equal` split and exactly one
    other party `o` gets `myAmount = A / 2`; `myAmount` plus the emitted
    `eachOtherShare` reconstitutes `A`; and when the other party
    (`paidby:roommate`) paid, exactly one peer debt is emitted, direction
    `i_owe_them`, against `o`, for `A / 2`. -/
theorem equal_split_single_other (ctx : EmitCtx) (p : ParsedExpense) (o : String)
    (hctx : ctx.amount = p.amount)
    (hfp : truthyStr p.forPerson = false)
    (hst : p.splitType = some SplitType.equal)
    (hone : resolveOthers p ["vyas"] = [o]) :
    (recomputeParsed p).myAmount = some (p.amount / 2)
    ∧ p.amount / 2
        + (splitMath ctx.amount SplitType.equal p.splitRatioMe p.splitRatioOther 1).2
        = p.amount
    ∧ (p.paidBy = some PaidBy.roommate →
        emitReimbs ctx (recomputeParsed p)
          = [insertReimbursementRow ctx o RDirection.i_owe_them (p.amount / 2)]) := by
  have hmy : computeMyShare p = p.amount / 2 := computeMyShare_equal_single p o hst hone
  refine ⟨?_, ?_, ?_⟩
  · rw [recompute_of_not_forPerson p hfp]
    show some (computeMyShare p) = some (p.amount / 2)
    rw [hmy]
  · rw [splitMath_equal, hctx]
    show p.amount / 2
        + (if 0 < 1 then (p.amount - p.amount / (1 + (if (1:Nat) = 0 then (1:ℚ) else ((1:Nat) : ℚ)))) / ((1:Nat) : ℚ)
           else p.amount - p.amount / (1 + (if (1:Nat) = 0 then (1:ℚ) else ((1:Nat) : ℚ)))) = p.amount
    norm_num
  · intro hpb
    rw [recompute_of_not_forPerson p hfp]
    rw [emitReimbs_other_paid ctx { p with myAmount := some (computeMyShare p) } o
      (show truthyStr p.forPerson = false from hfp)
      (show ¬ (p.splitType.getD SplitType.none = SplitType.none) by rw [hst]; decide)
      (show ¬ (p.paidBy.getD PaidBy.me = PaidBy.me) by rw [hpb]; decide)
      (show resolveOthers p ["vyas"] = [o] from hone)]
    show [insertReimbursementRow ctx o RDirection.i_owe_them
        (splitMath ctx.amount (p.splitType.getD SplitType.none) p.splitRatioMe
          p.splitRatioOther 1).1]
      = [insertReimbursementRow ctx o RDirection.i_owe_them (p.amount / 2)]
    rw [hst]
    simp only [Option.getD_some]
    rw [splitMath_equal, hctx]
    norm_num

def demoEqualParsed : ParsedExpense :=
  { amount := 300
    currency := some "USD"
    note := some "room"
    paidBy := some PaidBy.roommate
    type := some LType.expense
    splitType := some SplitType.equal
    otherParty := some "vyas"
    otherParties := some ["vyas"] }

def demoEqualCtx : EmitCtx :=
  { expenseId := "x2"
    occurredOn := DateTok.iso "2026" "02" "15"
    source := "message"
    fromUser := Option.none
    amount := 300
    currency := "USD"
    note := some "room"
    rawText := "room 300 paidby:roommate other:vyas split:equal" }

/-- C1 witness: the claim's instance, amount 300 paid by the roommate with
    the single other party vyas under `split:equal`. -/
theorem equal_split_single_other_witness :
    (recomputeParsed demoEqualParsed).myAmount = some 150
    ∧ (150 : ℚ)
        + (splitMath demoEqualCtx.amount SplitType.equal demoEqualParsed.splitRatioMe
            demoEqualParsed.splitRatioOther 1).2
        = 300
    ∧ emitReimbs demoEqualCtx (recomputeParsed demoEqualParsed)
        = [insertReimbursementRow demoEqualCtx "vyas" RDirection.i_owe_them 150] := by
  obtain ⟨h1, h2, h3⟩ :=
    equal_split_single_other demoEqualCtx demoEqualParsed "vyas" rfl (by decide) rfl (by decide)
  refine ⟨?_, ?_, ?_⟩
  · rw [h1]
    norm_num [demoEqualParsed]
  · have e : (demoEqualParsed.amount : ℚ) / 2 = 150 := by norm_num [demoEqualParsed]
    rw [← e]
    rw [h2]
    norm_num [demoEqualParsed]
  · rw [h3 rfl]
    norm_num [demoEqualParsed]

/-- C2: an expense allocated with an effective `ratio` split with both
    components positive gets `myAmount = amount * ratioMe / (ratioMe +
    ratioOther)` (this shared recomputation runs both at creation and at
    edit); the emitted `eachOtherShare` is the remainder divided evenly by
    the number of named others, independent of the ratio; and when the
    caller paid, one peer debt per named other is emitted, each for that
    even share. -/
theorem ratio_split_allocation (ctx : EmitCtx) (p : ParsedExpense) (a b : ℚ)
    (hctx : ctx.amount = p.amount)
    (hfp : truthyStr p.forPerson = false)
    (hst : p.splitType = some SplitType.ratio)
    (hrm : p.splitRatioMe = some a) (hro : p.splitRatioOther = some b)
    (ha : 0 < a) (hb : 0 < b) :
    (recomputeParsed p).myAmount = some (p.amount * a / (a + b))
    ∧ (∀ n : Nat, 0 < n →
        (splitMath ctx.amount SplitType.ratio p.splitRatioMe p.splitRatioOther n).2
          = (ctx.amount - ctx.amount * a / (a + b)) / (n : ℚ))
    ∧ (p.paidBy.getD PaidBy.me = PaidBy.me →
        emitReimbs ctx (recomputeParsed p)
          = (resolveOthers p ["vyas"]).map (fun x =>
              insertReimbursementRow ctx x RDirection.they_owe_me
                ((ctx.amount - ctx.amount * a / (a + b))
                  / ((resolveOthers p ["vyas"]).length : ℚ)))) := by
  refine ⟨?_, ?_, ?_⟩
  · rw [recompute_of_not_forPerson p hfp]
    show some (computeMyShare p) = some (p.amount * a / (a + b))
    rw [computeMyShare_ratio p a b hst hrm hro ha hb]
  · intro n hn
    rw [hrm, hro, splitMath_ratio ctx.amount a b n ha hb]
    dsimp only
    rw [if_pos hn]
  · intro hpb
    rw [recompute_of_not_forPerson p hfp]
    rw [emitReimbs_me_paid ctx { p with myAmount := some (computeMyShare p) }
      (show truthyStr p.forPerson = false from hfp)
      (show ¬ (p.splitType.getD SplitType.none = SplitType.none) by rw [hst]; decide)
      (show p.paidBy.getD PaidBy.me = PaidBy.me from hpb)]
    show (resolveOthers p ["vyas"]).map (fun x =>
        insertReimbursementRow ctx x RDirection.they_owe_me
          (splitMath ctx.amount (p.splitType.getD SplitType.none) p.splitRatioMe
            p.splitRatioOther (resolveOthers p ["vyas"]).length).2) = _
    rw [hst]
    simp only [Option.getD_some]
    rw [hrm, hro, splitMath_ratio ctx.amount a b _ ha hb]
    rcases hlist : resolveOthers p ["vyas"] with _ | ⟨x, xs⟩
    · rfl
    · dsimp only
      rw [if_pos (by simp : 0 < (x :: xs).length)]

/-- C2 witness at `food 90 paidby:me split:2/1 other:vyas`:
    `myAmount = 60`, each other share `30`, one `they_owe_me` debt of 30. -/
theorem ratio_split_allocation_witness :
    (recomputeParsed demoRatioParsed).myAmount = some 60
    ∧ (splitMath demoRatioCtx.amount SplitType.ratio demoRatioParsed.splitRatioMe
        demoRatioParsed.splitRatioOther 1).2 = 30
    ∧ emitReimbs demoRatioCtx (recomputeParsed demoRatioParsed)
        = [insertReimbursementRow demoRatioCtx "vyas" RDirection.they_owe_me 30] := by
  obtain ⟨h1, h2, h3⟩ :=
    ratio_split_allocation demoRatioCtx demoRatioParsed 2 1 rfl (by decide) rfl rfl rfl
      (by decide) (by decide)
  refine ⟨?_, ?_, ?_⟩
  · rw [h1]
    norm_num [demoRatioParsed]
  · rw [h2 1 (by decide)]
    norm_num [demoRatioCtx]
  · rw [h3 rfl]
    rw [show resolveOthers demoRatioParsed ["vyas"] = ["vyas"] from by decide]
    norm_num [demoRatioCtx]

lemma resolveOthers_some_ne (p : ParsedExpense) (l : List String) (dflt : List String)
    (hop : p.otherParties = some l) (hl : l.length ≠ 0) :
    resolveOthers p dflt = (l.map jsTrim).filter (· ≠ "") := by
  unfold resolveOthers
  rw [hop]
  simp only [if_pos hl]

lemma recompute_forPerson (p : ParsedExpense) (hfp : truthyStr p.forPerson = true) :
    recomputeParsed p = { p with
      otherParty := some (p.otherParty.getD (p.forPerson.getD ""))
      otherParties :=
        (match p.otherParties with
         | some l => if l.length ≠ 0 then some l else some [p.forPerson.getD ""]
         | Option.none => some [p.forPerson.getD ""])
      splitType := some SplitType.none
      myAmount := some 0 } := by
  unfold recomputeParsed applyForPerson
  rw [if_pos (show truthyStr ({ p with myAmount := some (computeMyShare p) }
      : ParsedExpense).forPerson = true from hfp)]

/-- C3: a `forPerson` expense gets `myAmount = 0` regardless of split
    tokens; the beneficiary is the first of `otherParties` when present,
    else `forPerson`; and exactly one peer debt for the full amount is
    emitted, direction `they_owe_me` when the caller paid (or paidBy is
    unset), `i_owe_them` otherwise. -/
theorem for_person_allocation (ctx : EmitCtx) (p : ParsedExpense) (f : String)
    (hctx : ctx.amount = p.amount)
    (hf : p.forPerson = some f) (hne : f ≠ "") (htrim : jsTrim f = f)
    (hclean : ∀ l, p.otherParties = some l → (l.map jsTrim).filter (· ≠ "") = l) :
    (recomputeParsed p).myAmount = some 0
    ∧ emitReimbs ctx (recomputeParsed p)
      = [insertReimbursementRow ctx
          (match p.otherParties with
           | some (x :: _) => x
           | _ => f)
          (if p.paidBy.getD PaidBy.me = PaidBy.me then RDirection.they_owe_me
           else RDirection.i_owe_them)
          ctx.amount] := by
  have hfp : truthyStr p.forPerson = true := by
    rw [hf]
    simp [truthyStr, hne]
  rw [recompute_forPerson p hfp]
  refine ⟨rfl, ?_⟩
  set Q : ParsedExpense := { p with
      otherParty := some (p.otherParty.getD (p.forPerson.getD ""))
      otherParties :=
        (match p.otherParties with
         | some l => if l.length ≠ 0 then some l else some [p.forPerson.getD ""]
         | Option.none => some [p.forPerson.getD ""])
      splitType := some SplitType.none
      myAmount := some 0 } with hQ
  rw [emitReimbs_forPerson ctx Q (show truthyStr p.forPerson = true from hfp)]
  have hben : (resolveOthers Q ["vyas"]).head?.getD (Q.forPerson.getD "")
      = (match p.otherParties with
         | some (x :: _) => x
         | _ => f) := by
    rcases hop : p.otherParties with _ | l
    · have hQop : Q.otherParties = some [f] := by
        rw [hQ]
        simp [hop, hf]
      rw [resolveOthers_some_ne Q [f] ["vyas"] hQop (by simp)]
      rw [show (([f].map jsTrim).filter (fun x => decide (x ≠ ""))) = [f] from by
        simp [htrim, hne]]
      rw [show Q.forPerson = some f from hf]
      rfl
    · rcases l with _ | ⟨x, xs⟩
      · have hQop : Q.otherParties = some [f] := by
          rw [hQ]
          simp [hop, hf]
        rw [resolveOthers_some_ne Q [f] ["vyas"] hQop (by simp)]
        rw [show (([f].map jsTrim).filter (fun x => decide (x ≠ ""))) = [f] from by
          simp [htrim, hne]]
        rw [show Q.forPerson = some f from hf]
        rfl
      · have hQop : Q.otherParties = some (x :: xs) := by
          rw [hQ]
          simp [hop]
        rw [resolveOthers_some_ne Q (x :: xs) ["vyas"] hQop (by simp)]
        rw [hclean (x :: xs) hop]
        rfl
  rw [hben]

def demoForPersonParsed : ParsedExpense :=
  { amount := 20
    currency := some "USD"
    note := some "lunch"
    forPerson := some "kevin"
    type := some LType.expense
    splitType := some SplitType.none }

def demoForPersonCtx : EmitCtx :=
  { expenseId := "x3"
    occurredOn := DateTok.iso "2026" "02" "20"
    source := "message"
    fromUser := Option.none
    amount := 20
    currency := "USD"
    note := some "lunch"
    rawText := "lunch 20 for:kevin" }

/-- C3 witness at `lunch 20 for:kevin`: zero own share, one full-amount
    `they_owe_me` debt against kevin. -/
theorem for_person_allocation_witness :
    (recomputeParsed demoForPersonParsed).myAmount = some 0
    ∧ emitReimbs demoForPersonCtx (recomputeParsed demoForPersonParsed)
        = [insertReimbursementRow demoForPersonCtx "kevin" RDirection.they_owe_me 20] := by
  obtain ⟨h1, h2⟩ :=
    for_person_allocation demoForPersonCtx demoForPersonParsed "kevin" rfl rfl
      (by decide) (by decide) (fun l hl => by simp [demoForPersonParsed] at hl)
  refine ⟨h1, ?_⟩
  rw [h2]
  decide

/-- Inversion of a successful parse: the date split, the amount match, the
    positivity guard, and the shape of the result. -/
lemma parse_inv (s : String) (p : ParsedExpense) (h : parseExpenseMessage s = some p) :
    ∃ occ text m, parseDateToken (extractMetaTokens (normalize s)).cleaned = (occ, text)
      ∧ text ≠ ""
      ∧ findAmount text.data = some m
      ∧ ¬ (amountVal m ≤ 0)
      ∧ p = parseAfterAmount (extractMetaTokens (normalize s)) occ text m := by
  simp only [parseExpenseMessage] at h
  rcases hpd : parseDateToken (extractMetaTokens (normalize s)).cleaned with ⟨occ, text⟩
  rw [hpd] at h
  simp only at h
  by_cases ht : text = ""
  · rw [if_pos ht] at h
    exact absurd h (by simp)
  · rw [if_neg ht] at h
    rcases hf : findAmount text.data with _ | m
    · rw [hf] at h
      exact absurd h (by simp)
    · rw [hf] at h
      simp only at h
      by_cases hle : amountVal m ≤ 0
      · rw [if_pos hle] at h
        exact absurd h (by simp)
      · rw [if_neg hle] at h
        exact ⟨occ, text, m, rfl, ht, hf, hle, (Option.some.inj h).symm⟩

/-- C4: the parser returns `null` exactly when no usable amount exists in the
    residual text (meta tokens and date removed): there is no match of the
    amount pattern, or the matched value is not positive. In particular a
    total function of the input (never throws), and never `null` because of
    malformed metadata. -/
theorem parse_none_iff_no_amount (s : String) :
    parseExpenseMessage s = Option.none ↔
      (∀ m, findAmount (residualText s).data = some m → amountVal m ≤ 0) := by
  constructor
  · intro h m hm
    rcases hpd : parseDateToken (extractMetaTokens (normalize s)).cleaned with ⟨occ, text⟩
    have hres : residualText s = text := by
      unfold residualText
      rw [hpd]
    rw [hres] at hm
    simp only [parseExpenseMessage, hpd] at h
    by_cases ht : text = ""
    · rw [ht] at hm
      exact absurd hm (by simp [findAmount, findAmountAux])
    · rw [if_neg ht, hm] at h
      simp only at h
      by_cases hle : amountVal m ≤ 0
      · exact hle
      · rw [if_neg hle] at h
        exact absurd h (by simp)
  · intro hall
    rcases hpd : parseDateToken (extractMetaTokens (normalize s)).cleaned with ⟨occ, text⟩
    have hres : residualText s = text := by
      unfold residualText
      rw [hpd]
    simp only [parseExpenseMessage, hpd]
    by_cases ht : text = ""
    · rw [if_pos ht]
    · rw [if_neg ht]
      rcases hf : findAmount text.data with _ | m
      · simp
      · have hle : amountVal m ≤ 0 := hall m (by rw [hres]; exact hf)
        simp [hle]

/-- C4 witness: no amount in the residual (`hello there`) yields `null`;
    a present amount with malformed metadata tokens still parses. -/
theorem parse_none_iff_no_amount_witness :
    parseExpenseMessage "hello there" = Option.none
    ∧ parseExpenseMessage "split:@@ type:bogus paidby:alice 25" ≠ Option.none
    ∧ parseExpenseMessage "spent 0 chai" = Option.none :=
  ⟨(parse_none_iff_no_amount "hello there").mpr (fun m hm => by
      rw [show findAmount (residualText "hello there").data = Option.none from by decide] at hm
      exact Option.noConfusion hm),
   by decide,
   (parse_none_iff_no_amount "spent 0 chai").mpr (fun m hm => by
      rw [show findAmount (residualText "spent 0 chai").data
          = some ⟨6, 1, ['0'], []⟩ from by decide] at hm
      rw [← Option.some.inj hm]
      decide)⟩

/-- The `filtered` candidate-description tokens of a message whose amount
    was found. -/
def parsedFiltered (s : String) : List String :=
  match findAmount (residualText s).data with
  | Option.none => []
  | some m => candFiltered (residualText s) m

lemma classifyOut_cons (f : String) (rest : List String) :
    classifyOut (f :: rest)
      = (if CATEGORY_WORDS.contains (toLowerStr f) then
           (some (normalizeCategory (toLowerStr f)),
            if joinSp rest == "" then Option.none else some (joinSp rest))
         else
           (Option.none,
            if joinSp (f :: rest) == "" then Option.none
            else some (joinSp (f :: rest)))) := rfl

/-- C9: when the candidate description's first remaining token is in the
    category vocabulary, the parse result's category is that token run
    through the synonym normalization and its note is the remaining tokens
    (or unset when empty); otherwise the category is unset and the whole
    candidate becomes the note. -/
theorem category_classification (s : String) (p : ParsedExpense)
    (h : parseExpenseMessage s = some p) :
    (parsedFiltered s = [] → p.category = Option.none ∧ p.note = Option.none)
    ∧ (∀ f rest, parsedFiltered s = f :: rest →
        (if CATEGORY_WORDS.contains (toLowerStr f) then
          p.category = some (normalizeCategory (toLowerStr f))
            ∧ p.note = (if joinSp rest == "" then Option.none else some (joinSp rest))
        else
          p.category = Option.none
            ∧ p.note = (if joinSp (f :: rest) == "" then Option.none
                        else some (joinSp (f :: rest))))) := by
  obtain ⟨occ, text, m, hpd, ht, hf, hle, hp⟩ := parse_inv s p h
  have hres : residualText s = text := by
    unfold residualText
    rw [hpd]
  have hpf : parsedFiltered s = candFiltered text m := by
    unfold parsedFiltered
    rw [hres, hf]
  have hcat : p.category = (classifyOut (candFiltered text m)).1 := by
    rw [hp]
    simp only [parseAfterAmount]
  have hnote : p.note = (classifyOut (candFiltered text m)).2 := by
    rw [hp]
    simp only [parseAfterAmount]
  constructor
  · intro hnil
    rw [hpf] at hnil
    rw [hcat, hnote, hnil]
    exact ⟨rfl, rfl⟩
  · intro f rest hcons
    rw [hpf] at hcons
    rw [hcat, hnote, hcons, classifyOut_cons]
    by_cases hc : CATEGORY_WORDS.contains (toLowerStr f) = true
    · rw [if_pos hc, if_pos hc]
      exact ⟨rfl, rfl⟩
    · rw [if_neg hc, if_neg hc]
      exact ⟨rfl, rfl⟩

/-- C9 counterexample: `groceries` is not in the category vocabulary, so a
    leading `groceries` does not produce category `grocery`; it stays in the
    note and the category is unset (the synonym `groceries → grocery` in
    `normalizeCategory` is unreachable from the classifier). -/
theorem category_groceries_counterexample :
    ((parseExpenseMessage "groceries 12").map (fun p => (p.category, p.note)))
      = some (Option.none, some "groceries")
    ∧ CATEGORY_WORDS.contains "groceries" = false
    ∧ normalizeCategory "groceries" = "grocery" := by
  refine ⟨by decide, by decide, by decide⟩

/-- The parse of the C9 witness text `cab 18 airport`. -/
def demoCabParsed : ParsedExpense :=
  { amount := 18
    currency := some "USD"
    category := some "transport"
    note := some "airport"
    type := some LType.expense
    splitType := some SplitType.none }

/-- C9 witness: a leading `cab` classifies through the synonym table to
    `transport` with the rest as note. -/
theorem category_classification_witness :
    demoCabParsed.category = some "transport" ∧ demoCabParsed.note = some "airport" := by
  have h := (category_classification "cab 18 airport" demoCabParsed (by decide)).2
    "cab" ["airport"] (by decide)
  rw [if_pos (by decide : CATEGORY_WORDS.contains (toLowerStr "cab") = true)] at h
  refine ⟨?_, ?_⟩
  · rw [h.1]
    decide
  · rw [h.2]
    decide

/-! ### C8: accumulation and deduplication of `other:` parties -/

lemma map_fixed {α : Type} (f : α → α) :
    ∀ l : List α, (∀ x ∈ l, f x = x) → l.map f = l
  | [], _ => rfl
  | x :: xs, h => by
    rw [List.map_cons, h x (List.mem_cons_self x xs),
        map_fixed f xs (fun y hy => h y (List.mem_cons_of_mem x hy))]

lemma filter_all {α : Type} (p : α → Bool) :
    ∀ l : List α, (∀ x ∈ l, p x = true) → l.filter p = l
  | [], _ => rfl
  | x :: xs, h => by
    simp only [List.filter_cons, h x (List.mem_cons_self x xs), if_true]
    rw [filter_all p xs (fun y hy => h y (List.mem_cons_of_mem x hy))]

lemma lowerChar_fixed {c : Char} (h : ¬(65 ≤ c.toNat ∧ c.toNat ≤ 90)) :
    lowerChar c = c := by
  unfold lowerChar
  rw [if_neg h]

lemma toNat_ofNat_valid (n : Nat) (h : n.isValidChar) : (Char.ofNat n).toNat = n := by
  rw [Char.ofNat, dif_pos h]
  rfl

lemma toNat_lowerChar_of_upper {c : Char} (h : 65 ≤ c.toNat ∧ c.toNat ≤ 90) :
    (lowerChar c).toNat = c.toNat + 32 := by
  unfold lowerChar
  rw [if_pos h]
  exact toNat_ofNat_valid _ (Or.inl (by omega))

lemma lowerChar_idem (c : Char) : lowerChar (lowerChar c) = lowerChar c := by
  by_cases h : 65 ≤ c.toNat ∧ c.toNat ≤ 90
  · have hv := toNat_lowerChar_of_upper h
    exact lowerChar_fixed (by rw [hv]; omega)
  · rw [lowerChar_fixed h, lowerChar_fixed h]

lemma toLowerL_fixed (cs : List Char) (h : ∀ c ∈ cs, lowerChar c = c) :
    toLowerL cs = cs := by
  unfold toLowerL
  exact map_fixed lowerChar cs h

lemma lowerChar_mem_toLowerL {c : Char} {cs : List Char} (h : c ∈ toLowerL cs) :
    lowerChar c = c := by
  unfold toLowerL at h
  rcases List.mem_map.mp h with ⟨d, _, rfl⟩
  exact lowerChar_idem d

lemma mem_dropLeadWs {c : Char} {l : List Char} : c ∈ dropLeadWs l → c ∈ l := by
  induction l with
  | nil => exact fun h => h
  | cons x xs ih =>
    intro h
    unfold dropLeadWs at h
    by_cases hx : isJsWs x = true
    · rw [if_pos hx] at h
      exact List.mem_cons_of_mem _ (ih h)
    · rw [if_neg hx] at h
      exact h

lemma mem_jsTrimL {c : Char} {l : List Char} (h : c ∈ jsTrimL l) : c ∈ l := by
  unfold jsTrimL at h
  exact mem_dropLeadWs (List.mem_reverse.mp (mem_dropLeadWs (List.mem_reverse.mp h)))

lemma mem_splitChAux {sep : Char} {x : List Char} {c : Char} :
    ∀ {cs cur : List Char}, x ∈ splitChAux sep cs cur → c ∈ x → c ∈ cs ∨ c ∈ cur := by
  intro cs
  induction cs with
  | nil =>
    intro cur hx hc
    simp only [splitChAux, List.mem_singleton] at hx
    subst hx
    exact Or.inr (List.mem_reverse.mp hc)
  | cons a rest ih =>
    intro cur hx hc
    unfold splitChAux at hx
    by_cases ha : a = sep
    · rw [if_pos ha] at hx
      rcases List.mem_cons.mp hx with hx1 | hx2
      · subst hx1
        exact Or.inr (List.mem_reverse.mp hc)
      · rcases ih hx2 hc with h1 | h1
        · exact Or.inl (List.mem_cons_of_mem _ h1)
        · exact absurd h1 (List.not_mem_nil c)
    · rw [if_neg ha] at hx
      rcases ih hx hc with h1 | h1
      · exact Or.inl (List.mem_cons_of_mem _ h1)
      · rcases List.mem_cons.mp h1 with h2 | h2
        · subst h2
          exact Or.inl (List.mem_cons_self _ _)
        · exact Or.inr h2

lemma stripPre_sub {c : Char} :
    ∀ {pre cs v : List Char}, stripPre pre cs = some v → c ∈ v → c ∈ cs := by
  intro pre
  induction pre with
  | nil =>
    intro cs v h hc
    unfold stripPre at h
    rw [Option.some.inj h]
    exact hc
  | cons p ps ih =>
    intro cs v h hc
    cases cs with
    | nil => exact absurd h (by simp [stripPre])
    | cons d ds =>
      unfold stripPre at h
      by_cases hd : d = p
      · rw [if_pos hd] at h
        exact List.mem_cons_of_mem _ (ih h hc)
      · rw [if_neg hd] at h
        exact absurd h (by simp)

lemma matchVal_strip {key lower v : List Char} (h : matchVal key lower = some v) :
    stripPre key lower = some v ∧ v ≠ [] := by
  unfold matchVal at h
  rcases hs : stripPre key lower with _ | ⟨_ | ⟨a, as⟩⟩
  · rw [hs] at h
    simp at h
  · rw [hs] at h
    simp at h
  · rw [hs] at h
    simp only [Option.some.injEq] at h
    subst h
    exact ⟨rfl, by simp⟩

lemma dropLeadWs_noLead : ∀ l : List Char, noLeadWs (dropLeadWs l)
  | [] => trivial
  | c :: rest => by
    unfold dropLeadWs
    cases hb : isJsWs c with
    | true =>
      rw [if_pos rfl]
      exact dropLeadWs_noLead rest
    | false =>
      rw [if_neg (by simp [hb])]
      exact hb

lemma dropLeadWs_of_noLead : ∀ {l : List Char}, noLeadWs l → dropLeadWs l = l
  | [], _ => rfl
  | c :: _, h => by
    have hc : isJsWs c = false := h
    unfold dropLeadWs
    rw [if_neg (by simp [hc])]

lemma dropLeadWs_idem (l : List Char) : dropLeadWs (dropLeadWs l) = dropLeadWs l :=
  dropLeadWs_of_noLead (dropLeadWs_noLead l)

lemma dropLeadWs_append_keep :
    ∀ (xs : List Char) {c : Char}, isJsWs c = false →
      ∃ ys, dropLeadWs (xs ++ [c]) = ys ++ [c]
  | [], c, hc => ⟨[], by simp [dropLeadWs, hc]⟩
  | x :: xs, c, hc => by
    rw [List.cons_append]
    unfold dropLeadWs
    cases hb : isJsWs x with
    | true =>
      rw [if_pos rfl]
      exact dropLeadWs_append_keep xs hc
    | false =>
      rw [if_neg (by simp [hb])]
      exact ⟨x :: xs, by simp⟩

lemma jsTrimL_eq (l : List Char) : jsTrimL l = trimEnd (dropLeadWs l) := rfl

lemma trimEnd_noLead {l : List Char} (h : noLeadWs l) : noLeadWs (trimEnd l) := by
  cases l with
  | nil => trivial
  | cons c rest =>
    have hc : isJsWs c = false := h
    unfold trimEnd
    rw [show (c :: rest).reverse = rest.reverse ++ [c] by simp]
    obtain ⟨ys, hys⟩ := dropLeadWs_append_keep rest.reverse hc
    rw [hys, List.reverse_append]
    show noLeadWs (c :: ys.reverse)
    exact hc

lemma trimEnd_idem (l : List Char) : trimEnd (trimEnd l) = trimEnd l := by
  unfold trimEnd
  rw [List.reverse_reverse, dropLeadWs_idem]

lemma jsTrimL_idem (l : List Char) : jsTrimL (jsTrimL l) = jsTrimL l := by
  rw [jsTrimL_eq l, jsTrimL_eq (trimEnd (dropLeadWs l)),
      dropLeadWs_of_noLead (trimEnd_noLead (dropLeadWs_noLead l)), trimEnd_idem]

lemma jsTrim_mk_trimmed (cs : List Char) :
    jsTrim (String.mk (jsTrimL cs)) = String.mk (jsTrimL cs) := by
  unfold jsTrim
  rw [show (String.mk (jsTrimL cs)).data = jsTrimL cs from rfl, jsTrimL_idem]

lemma commaParts_props {v : List Char} (hlow : ∀ c ∈ v, lowerChar c = c) :
    ∀ x ∈ commaParts v, toLowerStr x = x ∧ x ≠ "" ∧ jsTrim x = x := by
  intro x hx
  unfold commaParts at hx
  rcases List.mem_map.mp hx with ⟨piece, hpiece, rfl⟩
  have hpf := List.mem_filter.mp hpiece
  rcases List.mem_map.mp hpf.1 with ⟨piece0, hp0, hpe⟩
  subst hpe
  have hsub : ∀ c ∈ jsTrimL piece0, c ∈ v := by
    intro c hc
    rcases mem_splitChAux hp0 (mem_jsTrimL hc) with h1 | h1
    · exact h1
    · exact absurd h1 (List.not_mem_nil c)
  refine ⟨?_, ?_, jsTrim_mk_trimmed piece0⟩
  · show toLowerStr (String.mk (jsTrimL piece0)) = String.mk (jsTrimL piece0)
    unfold toLowerStr
    rw [show (String.mk (jsTrimL piece0)).data = jsTrimL piece0 from rfl,
        toLowerL_fixed _ (fun c hc => hlow c (hsub c hc))]
  · intro hemp
    exact of_decide_eq_true hpf.2 (by simpa using congrArg String.data hemp)

lemma dedupSeen_sublist : ∀ (l seen : List String), (dedupSeen seen l).Sublist l
  | [], _ => by
    show List.Sublist [] []
    exact List.Sublist.refl []
  | x :: xs, seen => by
    unfold dedupSeen
    by_cases hx : x ∈ seen
    · rw [if_pos hx]
      exact (dedupSeen_sublist xs seen).cons x
    · rw [if_neg hx]
      exact (dedupSeen_sublist xs (x :: seen)).cons₂ x

lemma mem_dedupSeen_iff {y : String} :
    ∀ (l seen : List String), y ∈ dedupSeen seen l ↔ (y ∈ l ∧ y ∉ seen)
  | [], seen => by simp [dedupSeen]
  | x :: xs, seen => by
    unfold dedupSeen
    by_cases hx : x ∈ seen
    · rw [if_pos hx, mem_dedupSeen_iff xs seen]
      constructor
      · rintro ⟨h1, h2⟩
        exact ⟨List.mem_cons_of_mem _ h1, h2⟩
      · rintro ⟨h1, h2⟩
        rcases List.mem_cons.mp h1 with h0 | h3
        · subst h0
          exact absurd hx h2
        · exact ⟨h3, h2⟩
    · rw [if_neg hx, List.mem_cons, mem_dedupSeen_iff xs (x :: seen)]
      constructor
      · rintro (h0 | ⟨h1, h2⟩)
        · subst h0
          exact ⟨List.mem_cons_self _ _, hx⟩
        · exact ⟨List.mem_cons_of_mem _ h1,
            fun hy => h2 (List.mem_cons_of_mem _ hy)⟩
      · rintro ⟨h1, h2⟩
        by_cases hyx : y = x
        · exact Or.inl hyx
        · rcases List.mem_cons.mp h1 with h0 | h3
          · exact absurd h0 hyx
          · refine Or.inr ⟨h3, fun hy => ?_⟩
            rcases List.mem_cons.mp hy with h4 | h4
            · exact hyx h4
            · exact h2 h4

lemma nodup_dedupSeen : ∀ (l seen : List String), (dedupSeen seen l).Nodup
  | [], _ => by
    show List.Nodup []
    exact List.nodup_nil
  | x :: xs, seen => by
    unfold dedupSeen
    by_cases hx : x ∈ seen
    · rw [if_pos hx]
      exact nodup_dedupSeen xs seen
    · rw [if_neg hx]
      refine List.nodup_cons.mpr ⟨fun hmem => ?_, nodup_dedupSeen xs (x :: seen)⟩
      exact ((mem_dedupSeen_iff xs (x :: seen)).mp hmem).2 (List.mem_cons_self _ _)

lemma dedupSeen_congr :
    ∀ (l seen1 seen2 : List String), (∀ x, x ∈ seen1 ↔ x ∈ seen2) →
      dedupSeen seen1 l = dedupSeen seen2 l
  | [], _, _, _ => rfl
  | x :: xs, s1, s2, h => by
    unfold dedupSeen
    by_cases hx : x ∈ s1
    · rw [if_pos hx, if_pos ((h x).mp hx)]
      exact dedupSeen_congr xs s1 s2 h
    · rw [if_neg hx, if_neg (fun hc => hx ((h x).mpr hc))]
      rw [dedupSeen_congr xs (x :: s1) (x :: s2)
        (fun y => by rw [List.mem_cons, List.mem_cons, h y])]

lemma any_key_iff (m : List (String × String)) (s : String) :
    m.any (fun kv => kv.1 == s) = true ↔ s ∈ m.map Prod.fst := by
  rw [List.any_eq_true]
  constructor
  · rintro ⟨kv, hkv, he⟩
    rw [List.mem_map]
    exact ⟨kv, hkv, eq_of_beq he⟩
  · intro hm
    rcases List.mem_map.mp hm with ⟨kv, hkv, he⟩
    exact ⟨kv, hkv, beq_iff_eq.mpr he⟩

lemma foldl_insert :
    ∀ (l : List String) (m : List (String × String)),
      (∀ kv ∈ m, kv.1 = kv.2) →
      (∀ x ∈ l, toLowerStr x = x) →
      (l.foldl (fun acc s => insertPair acc (toLowerStr s) s) m).map Prod.snd
        = m.map Prod.snd ++ dedupSeen (m.map Prod.fst) l
  | [], m, _, _ => by
    show m.map Prod.snd = m.map Prod.snd ++ dedupSeen (m.map Prod.fst) []
    rw [show dedupSeen (m.map Prod.fst) [] = [] from rfl, List.append_nil]
  | s :: xs, m, hm, hl => by
    have hs : toLowerStr s = s := hl s (List.mem_cons_self _ _)
    have hl2 : ∀ x ∈ xs, toLowerStr x = x := fun y hy => hl y (List.mem_cons_of_mem _ hy)
    simp only [List.foldl_cons]
    by_cases hin : s ∈ m.map Prod.fst
    · have hid : insertPair m (toLowerStr s) s = m := by
        unfold insertPair
        rw [hs, if_pos ((any_key_iff m s).mpr hin)]
        refine map_fixed _ m (fun kv hkv => ?_)
        by_cases hk : (kv.1 == s) = true
        · rw [if_pos hk, Prod.ext_iff]
          exact ⟨(eq_of_beq hk).symm, ((eq_of_beq hk).symm).trans (hm kv hkv)⟩
        · rw [if_neg hk]
      rw [hid, foldl_insert xs m hm hl2,
          show dedupSeen (m.map Prod.fst) (s :: xs) = dedupSeen (m.map Prod.fst) xs from by
            simp only [dedupSeen]
            rw [if_pos hin]]
    · have hid : insertPair m (toLowerStr s) s = m ++ [(s, s)] := by
        unfold insertPair
        rw [hs, if_neg (fun hc => hin ((any_key_iff m s).mp hc))]
      have hm2 : ∀ kv ∈ m ++ [(s, s)], kv.1 = kv.2 := by
        intro kv hkv
        rcases List.mem_append.mp hkv with h1 | h1
        · exact hm kv h1
        · rcases List.mem_singleton.mp h1 with h2
          rw [h2]
      rw [hid, foldl_insert xs (m ++ [(s, s)]) hm2 hl2]
      simp only [List.map_append, List.map_cons, List.map_nil]
      rw [dedupSeen_congr xs (m.map Prod.fst ++ [s]) (s :: m.map Prod.fst)
            (fun y => by simp [or_comm]),
          show dedupSeen (m.map Prod.fst) (s :: xs)
              = s :: dedupSeen (s :: m.map Prod.fst) xs from by
            simp only [dedupSeen]
            rw [if_neg hin]]
      simp

lemma jsMapDedup_eq {raw : List String}
    (h : ∀ x ∈ raw, toLowerStr x = x ∧ x ≠ "" ∧ jsTrim x = x) :
    jsMapDedup raw = dedupFirst raw := by
  unfold jsMapDedup dedupFirst
  rw [map_fixed jsTrim raw (fun x hx => (h x hx).2.2),
      filter_all _ raw (fun x hx => decide_eq_true (h x hx).2.1),
      foldl_insert raw [] (by simp) (fun x hx => (h x hx).1)]
  rfl

lemma metaInv_applySplitVal {acc : MetaAcc} (h : MetaInv acc) (v : List Char) :
    MetaInv (applySplitVal acc v) := by
  unfold applySplitVal
  repeat' split
  all_goals exact h

lemma extractLoopF_inv (fuel : Nat) :
    ∀ (toks : List (List Char)) (acc : MetaAcc),
      MetaInv acc → MetaInv (extractLoopF fuel toks acc) := by
  induction fuel with
  | zero => exact fun toks acc h => h
  | succ fuel ih =>
    intro toks acc h
    cases toks with
    | nil => exact h
    | cons t rest =>
      simp only [extractLoopF]
      repeat' split
      all_goals try exact ih _ _ h
      all_goals try exact ih _ _ (metaInv_applySplitVal h _)
      all_goals try exact h
      rename_i v hv
      have hlow : ∀ c ∈ v, lowerChar c = c :=
        fun c hc => lowerChar_mem_toLowerL (stripPre_sub (matchVal_strip hv).1 hc)
      refine ih _ _ ⟨?_, ?_⟩
      · show jsNullish acc.otherParty (commaParts v).head?
            = (acc.otherPartiesRaw ++ commaParts v).head?
        have h1 := h.1
        rcases hop : acc.otherPartiesRaw with _ | ⟨y, ys⟩
        · rw [hop] at h1
          simp only [List.head?_nil] at h1
          rw [h1]
          simp [jsNullish]
        · rw [hop] at h1
          simp only [List.head?_cons] at h1
          rw [h1]
          simp [jsNullish]
      · intro x hx
        rcases List.mem_append.mp hx with h1 | h1
        · exact h.2 x h1
        · exact commaParts_props hlow x h1

lemma otherRaw_props (s : String) :
    (extractLoop (metaTokens (normalize s)) {}).otherParty = (otherRaw s).head?
      ∧ ∀ x ∈ otherRaw s, toLowerStr x = x ∧ x ≠ "" ∧ jsTrim x = x :=
  extractLoopF_inv (metaTokens (normalize s)).length (metaTokens (normalize s)) {}
    ⟨rfl, by simp⟩

set_option maxHeartbeats 2000000 in
/-- C8: for a successfully parsed message with at least one accumulated
    `other:` comma part, `otherParty` is the first part encountered, and
    `otherParties` is exactly the first-occurrence deduplication of the raw
    parts: a sublist of them (first-seen order and first-seen casing kept),
    with the same members, and pairwise distinct under case-insensitive
    comparison (the loop matches on the lowercased token, so the raw parts
    are already lowercase and the `Map` keyed on `toLowerCase` collapses
    exactly the repeated entries). -/
theorem other_parties_dedup (s : String) (p : ParsedExpense)
    (h : parseExpenseMessage s = some p) (hne : otherRaw s ≠ []) :
    p.otherParty = (otherRaw s).head?
      ∧ p.otherParties = some (dedupFirst (otherRaw s))
      ∧ (dedupFirst (otherRaw s)).Sublist (otherRaw s)
      ∧ (∀ x, x ∈ dedupFirst (otherRaw s) ↔ x ∈ otherRaw s)
      ∧ (dedupFirst (otherRaw s)).Pairwise
          (fun a b => toLowerStr a ≠ toLowerStr b) := by
  obtain ⟨occ, text, m, hpd, ht, hf, hle, hp⟩ := parse_inv s p h
  obtain ⟨hop, hprops⟩ := otherRaw_props s
  have hdedup : jsMapDedup (otherRaw s) = dedupFirst (otherRaw s) := jsMapDedup_eq hprops
  have hdne : dedupFirst (otherRaw s) ≠ [] := by
    rcases hr : otherRaw s with _ | ⟨y, ys⟩
    · exact absurd hr hne
    · simp only [dedupFirst, dedupSeen]
      rw [if_neg (List.not_mem_nil y)]
      simp
  refine ⟨?_, ?_, dedupSeen_sublist (otherRaw s) [], ?_, ?_⟩
  · rw [hp]
    exact hop
  · rw [hp]
    rw [show (parseAfterAmount (extractMetaTokens (normalize s)) occ text m).otherParties
        = (if jsMapDedup (otherRaw s) ≠ [] then some (jsMapDedup (otherRaw s))
           else Option.none) from rfl]
    rw [hdedup, if_pos hdne]
  · intro x
    rw [show dedupFirst (otherRaw s) = dedupSeen [] (otherRaw s) from rfl,
        mem_dedupSeen_iff (otherRaw s) []]
    simp
  · have hnd : (dedupFirst (otherRaw s)).Pairwise (fun a b => a ≠ b) :=
      nodup_dedupSeen (otherRaw s) []
    have hlow2 : ∀ x ∈ dedupFirst (otherRaw s), toLowerStr x = x := fun x hx =>
      (hprops x (mem_dedupSeen hx)).1
    refine List.Pairwise.imp_of_mem ?_ hnd
    intro a b ha hb hab
    rw [hlow2 a ha, hlow2 b hb]
    exact hab

/-- The parse of the C8 witness text `spent 30 other:Vyas,kevin other:vyas`. -/
def demoOtherParsed : ParsedExpense :=
  { amount := 30
    currency := some "USD"
    type := some LType.expense
    splitType := some SplitType.none
    otherParty := some "vyas"
    otherParties := some ["vyas", "kevin"] }

/-- C8 witness: two `other:` tokens whose comma parts repeat `vyas` (once in
    mixed case) yield `otherParty = "vyas"` and the deduplicated list
    `["vyas", "kevin"]`. -/
theorem other_parties_dedup_witness :
    parseExpenseMessage "spent 30 other:Vyas,kevin other:vyas" = some demoOtherParsed
      ∧ otherRaw "spent 30 other:Vyas,kevin other:vyas" = ["vyas", "kevin", "vyas"]
      ∧ demoOtherParsed.otherParty = some "vyas"
      ∧ demoOtherParsed.otherParties = some ["vyas", "kevin"] := by
  have hparse : parseExpenseMessage "spent 30 other:Vyas,kevin other:vyas"
      = some demoOtherParsed := by decide
  have h := other_parties_dedup "spent 30 other:Vyas,kevin other:vyas" demoOtherParsed
    hparse (by decide)
  refine ⟨hparse, by decide, ?_, ?_⟩
  · rw [h.1]
    decide
  · rw [h.2.1]
    decide

end ExpenseTracker
